import Mathlib

/-!
# gomu play queue (`queue.go`)

A shallow embedding of the play-queue manager of the gomu terminal audio
player, followed by theorems about it.

Conventions of the embedding:

* Go `string` is `String`, Go `int` is `Int`, `time.Duration` is an `Int`
  kept in the signed 64-bit range by `wrapInt64`.
* A `*AudioFile` held by the queue is a non-nil pointer and is represented by
  the record it points to; where a call can receive a nil pointer the argument
  is an `Option AudioFile`, and a call that dies with a runtime failure returns
  `none`.
* A Go result pair `(v, err)` is a Lean pair whose error component is an
  `Option GoError` (`none` is `nil`).
* The embedded `*tview.List` widget is the record `TviewList`; its methods
  follow the documented behaviour of the widget library.
* Helpers of the program that live in other files (`fmtDuration`, `GetName`)
  are parameters collected in `Helpers`; the process environment and the
  audio-duration lookup are parameters collected in `Sys`, so that they may
  differ from one call to the next.
-/

namespace Gomu

/-! ## Data model -/

/-- Go `error` values that the queue creates or forwards. -/
inductive GoError where
  /-- An `errors.New(msg)` value, or an error reported by the system. -/
  | new (msg : String)
  /-- The value `WrapError(fnName, cause)`. -/
  | wrap (fnName : String) (cause : GoError)
  deriving DecidableEq, Repr

/-- The catalog record of a playable file: `Name`, `Path` and `Length`. -/
structure AudioFile where
  Name : String
  Path : String
  Length : Int
  deriving DecidableEq, Repr

/-- Signed 64-bit wrap-around, the arithmetic of `time.Duration`. -/
def wrapInt64 (x : Int) : Int :=
  (x + 2 ^ 63) % 2 ^ 64 - 2 ^ 63

/-- One row of the list widget: main text and secondary text. -/
structure ListItem where
  MainText : String
  SecondaryText : String
  deriving DecidableEq, Repr

/-- The list widget embedded in `Queue`: rows, cursor and box title. -/
structure TviewList where
  items : List ListItem
  currentItem : Int
  title : String
  deriving DecidableEq, Repr

/-- The queue: the widget, the cache path, the tracks and the loop flag. -/
structure Queue where
  list : TviewList
  SavedQueuePath : String
  Items : List AudioFile
  IsLoop : Bool
  deriving DecidableEq, Repr

/-- The part of `gomu.Player` the queue touches: the `IsRunning` flag and the
tracks passed to `Player.Run` so far, oldest first. -/
structure Player where
  IsRunning : Bool
  runCalls : List AudioFile
  deriving DecidableEq, Repr

/-- Pure helpers of the program defined outside `queue.go`. -/
structure Helpers where
  fmtDuration : Int → String
  GetName : String → String

/-- What a single call observes of the outside world: the value of
`os.Getenv("TEST")` and the result pair of `GetLength(path)`. -/
structure Sys where
  TEST : String
  GetLength : String → Int × Option GoError

/-! ## The list widget -/

namespace TviewList

/-- The widget made by `tview.NewList()`: no rows, cursor 0, empty title. -/
def NewList : TviewList :=
  { items := [], currentItem := 0, title := "" }

/-- The method `GetItemCount`: the number of rows. -/
def GetItemCount (l : TviewList) : Int :=
  l.items.length

/-- The method `GetCurrentItem`: the cursor. -/
def GetCurrentItem (l : TviewList) : Int :=
  l.currentItem

/-- Index normalisation shared by `SetCurrentItem` and `RemoveItem`: negative
indices count from the back, out-of-range indices are clamped. -/
def clampIndex (n : Nat) (index : Int) : Int :=
  let index := if index < 0 then (n : Int) + index else index
  let index := if index ≥ (n : Int) then (n : Int) - 1 else index
  if index < 0 then 0 else index

/-- The method `SetCurrentItem`: moves the cursor to the clamped index. -/
def SetCurrentItem (l : TviewList) (index : Int) : TviewList :=
  { l with currentItem := clampIndex l.items.length index }

/-- The method `SetTitle`. -/
def SetTitle (l : TviewList) (title : String) : TviewList :=
  { l with title := title }

/-- The method `InsertItem`: inserts a row before position `index` (negative
indices count from the back, -1 meaning the end), shifting the cursor when it
sits at or after the insertion point. -/
def InsertItem (l : TviewList) (index : Int) (mainText secondaryText : String) : TviewList :=
  let n : Int := l.items.length
  let index := if index < 0 then n + index + 1 else index
  let index := if index < 0 then 0 else if index > n then n else index
  let cur := if l.currentItem < n ∧ l.currentItem ≥ index then l.currentItem + 1 else l.currentItem
  { l with
    items := l.items.take index.toNat ++ ⟨mainText, secondaryText⟩ :: l.items.drop index.toNat
    currentItem := cur }

/-- The method `AddItem`: appends a row (it is `InsertItem` at index -1). -/
def AddItem (l : TviewList) (mainText secondaryText : String) : TviewList :=
  l.InsertItem (-1) mainText secondaryText

/-- The method `RemoveItem`: removes the row at the clamped index; on an empty
list it does nothing. The cursor moves back by one when it sits at or after the
removed row and rows remain. -/
def RemoveItem (l : TviewList) (index : Int) : TviewList :=
  if l.items.length = 0 then l
  else
    let index := clampIndex l.items.length index
    let items := l.items.eraseIdx index.toNat
    if items.length = 0 then { l with items := items }
    else
      { l with
        items := items
        currentItem := if l.currentItem ≥ index then l.currentItem - 1 else l.currentItem }

/-- The method `Clear`: removes every row and resets the cursor. -/
def Clear (l : TviewList) : TviewList :=
  { l with items := [], currentItem := 0 }

end TviewList

/-! ## Queue operations -/

namespace Queue

/-- The value of `q.GetItemCount()`, promoted from the embedded widget. -/
def GetItemCount (q : Queue) : Int :=
  q.list.GetItemCount

/-- The loop of `UpdateTitle` that adds up `v.Length` over `Items`. -/
def totalLength (items : List AudioFile) : Int :=
  items.foldl (fun acc v => wrapInt64 (acc + v.Length)) 0

/-- The text `fmt.Sprintf("┤ Queue ├──┤%d|%s├", count, fmtTime)`. -/
def titleText (count : Nat) (fmtTime : String) : String :=
  "┤ Queue ├──┤" ++ toString count ++ "|" ++ fmtTime ++ "├"

/-- The method `UpdateTitle`: the title shows `len(Items)` and the formatted
total length. -/
def UpdateTitle (h : Helpers) (q : Queue) : Queue :=
  { q with list := q.list.SetTitle (titleText q.Items.length (h.fmtDuration (totalLength q.Items))) }

/-- The loop of `DeleteItem` that rebuilds the slice without position `index`
and remembers the element found there. The accumulator is `(nItems, dAudio)`,
`i` is the position of the head of the remaining input. -/
def deleteLoop (index : Int) : Nat → List AudioFile → List AudioFile × Option AudioFile →
    List AudioFile × Option AudioFile
  | _, [], acc => acc
  | i, v :: rest, (nItems, dAudio) =>
    if (i : Int) = index then deleteLoop index (i + 1) rest (nItems, some v)
    else deleteLoop index (i + 1) rest (nItems ++ [v], dAudio)

/-- The method `DeleteItem`: the new queue, the removed track (`none` is nil)
and the error. -/
def DeleteItem (h : Helpers) (q : Queue) (index : Int) : Queue × Option AudioFile × Option GoError :=
  if index > (q.Items.length : Int) - 1 then
    (q, none, some (GoError.new "Index out of range"))
  else if index ≠ -1 then
    let q1 : Queue := { q with list := q.list.RemoveItem index }
    let r := deleteLoop index 0 q1.Items ([], none)
    let q2 : Queue := { q1 with Items := r.1 }
    (UpdateTitle h q2, r.2, none)
  else
    (q, none, none)

/-- The row text `fmt.Sprintf("[ %s ] %s", fmtDuration(length), name)`. -/
def itemView (h : Helpers) (length : Int) (name : String) : String :=
  "[ " ++ h.fmtDuration length ++ " ] " ++ name

/-- The method `PushFront`, for a non-nil track. -/
def PushFront (h : Helpers) (q : Queue) (audioFile : AudioFile) : Queue :=
  let q1 : Queue := { q with Items := [audioFile] ++ q.Items }
  let queueItemView := itemView h audioFile.Length (h.GetName audioFile.Name)
  let q2 : Queue := { q1 with list := q1.list.InsertItem 0 queueItemView audioFile.Path }
  UpdateTitle h q2

/-- The method `Dequeue`. The result is `none` when the call dies with a
runtime failure: reading `q.Items[0]` of an empty slice. -/
def Dequeue (h : Helpers) (q : Queue) : Option (Queue × Option AudioFile × Option GoError) :=
  if q.GetItemCount = 0 then
    some (q, none, some (GoError.new "Empty list\n"))
  else
    match q.Items with
    | [] => none
    | first :: _ =>
      let q1 := (DeleteItem h q 0).1
      some (UpdateTitle h q1, some first, none)

/-- The method `Enqueue`, for a non-nil track: the new queue, the new player
state, the returned count and the error. -/
def Enqueue (h : Helpers) (s : Sys) (q : Queue) (p : Player) (audioFile : AudioFile) :
    Queue × Player × Int × Option GoError :=
  if p.IsRunning = false ∧ "false" = s.TEST then
    let p1 : Player := { p with IsRunning := true }
    let p2 : Player := { p1 with runCalls := p1.runCalls ++ [audioFile] }
    (q, p2, q.GetItemCount, none)
  else
    let q1 : Queue := { q with Items := q.Items ++ [audioFile] }
    match s.GetLength audioFile.Path with
    | (_, some err) => (q1, p, 0, some (GoError.wrap "Enqueue" err))
    | (songLength, none) =>
      let queueItemView := itemView h songLength (h.GetName audioFile.Name)
      let q2 : Queue := { q1 with list := q1.list.AddItem queueItemView audioFile.Path }
      let q3 := UpdateTitle h q2
      (q3, p, q3.GetItemCount, none)

/-- The loop of `GetItems`: the secondary text of rows `0 .. GetItemCount-1`. -/
def GetItems (q : Queue) : List String :=
  q.list.items.map ListItem.SecondaryText

/-- The method `ClearQueue`. -/
def ClearQueue (h : Helpers) (q : Queue) : Queue :=
  let q1 : Queue := { q with Items := [] }
  let q2 : Queue := { q1 with list := q1.list.Clear }
  UpdateTitle h q2

/-- The swap closure given to `rand.Shuffle`: exchanges positions `i` and `j`
of the slice. Both positions are in range whenever `rand.Shuffle` calls it. -/
def swapItems (items : List AudioFile) (i j : Nat) : List AudioFile :=
  match items[i]?, items[j]? with
  | some a, some b => (items.set i b).set j a
  | _, _ => items

/-- The loop of `rand.Shuffle(n, swap)`: for `i` from `n-1` down to `1` it
draws `j` in `[0, i]` and calls `swap(i, j)`. The argument is the current `i`;
`rnd i` is the raw random number drawn at step `i`. -/
def shuffleLoop (rnd : Nat → Nat) : Nat → List AudioFile → List AudioFile
  | 0, items => items
  | i + 1, items => shuffleLoop rnd i (swapItems items (i + 1) (rnd (i + 1) % (i + 2)))

/-- The loop of `Shuffle` that adds one row per track in the new order. -/
def shuffleRows (h : Helpers) (s : Sys) (l : TviewList) : List AudioFile → TviewList
  | [] => l
  | v :: rest =>
    let audioLen := (s.GetLength v.Path).1
    let queueText := itemView h audioLen v.Name
    shuffleRows h s (l.AddItem queueText v.Path) rest

/-- The method `Shuffle`; `rnd` is the outcome of the random source. -/
def Shuffle (h : Helpers) (s : Sys) (rnd : Nat → Nat) (q : Queue) : Queue :=
  let q1 : Queue := { q with Items := shuffleLoop rnd (q.Items.length - 1) q.Items }
  let q2 : Queue := { q1 with list := q1.list.Clear }
  let q3 : Queue := { q2 with list := shuffleRows h s q2.list q2.Items }
  UpdateTitle h q3

/-- The queue built by `NewQueue`. -/
def NewQueue (h : Helpers) : Queue :=
  UpdateTitle h
    { list := TviewList.NewList
      SavedQueuePath := "~/.local/share/gomu/queue.cache"
      Items := []
      IsLoop := false }

end Queue

/-! ## Identity hashing -/

namespace Sha1

/-- Addition of `uint32` values. -/
def add32 (a b : Nat) : Nat :=
  (a + b) % 2 ^ 32

/-- The function `bits.RotateLeft32`. -/
def rotl (x n : Nat) : Nat :=
  ((x <<< n) ||| (x >>> (32 - n))) % 2 ^ 32

/-- Bitwise complement of a `uint32` value. -/
def not32 (x : Nat) : Nat :=
  x ^^^ 0xFFFFFFFF

/-- Big-endian bytes of a `uint32` value. -/
def be32 (w : Nat) : List Nat :=
  [w / 2 ^ 24 % 256, w / 2 ^ 16 % 256, w / 2 ^ 8 % 256, w % 256]

/-- Big-endian bytes of a `uint64` value. -/
def be64 (w : Nat) : List Nat :=
  be32 (w / 2 ^ 32 % 2 ^ 32) ++ be32 (w % 2 ^ 32)

/-- The padded message: a 1 bit, 0 bits up to 56 bytes mod 64, then the
length in bits as a `uint64`. -/
def pad (msg : List Nat) : List Nat :=
  let len := msg.length
  let k := if len % 64 < 56 then 56 - len % 64 else 64 + 56 - len % 64
  msg ++ 0x80 :: List.replicate (k - 1) 0 ++ be64 (len * 8 % 2 ^ 64)

/-- Reads the big-endian `uint32` words of a block. -/
def words : List Nat → List Nat
  | b0 :: b1 :: b2 :: b3 :: rest => (b0 * 2 ^ 24 + b1 * 2 ^ 16 + b2 * 2 ^ 8 + b3) :: words rest
  | _ => []

/-- Extends the message schedule by `n` words. The schedule is kept newest
word first, so `w[i-3]`, `w[i-8]`, `w[i-14]`, `w[i-16]` sit at offsets 2, 7, 13, 15. -/
def extend : Nat → List Nat → List Nat
  | 0, w => w
  | n + 1, w =>
    let tmp := w.getD 2 0 ^^^ w.getD 7 0 ^^^ w.getD 13 0 ^^^ w.getD 15 0
    extend n (rotl tmp 1 :: w)

/-- The five chaining words. -/
structure Digest where
  h0 : Nat
  h1 : Nat
  h2 : Nat
  h3 : Nat
  h4 : Nat
  deriving DecidableEq, Repr

/-- The initial chaining value. -/
def init : Digest :=
  ⟨0x67452301, 0xEFCDAB89, 0x98BADCFE, 0x10325476, 0xC3D2E1F0⟩

/-- The 80 rounds over the schedule `w` (oldest word first), `i` being the
number of the round that consumes the head of `w`. -/
def rounds : Nat → List Nat → Digest → Digest
  | _, [], s => s
  | i, wi :: w, ⟨a, b, c, d, e⟩ =>
    let f :=
      if i < 20 then (b &&& c) ||| (not32 b &&& d)
      else if i < 40 then b ^^^ c ^^^ d
      else if i < 60 then ((b ||| c) &&& d) ||| (b &&& c)
      else b ^^^ c ^^^ d
    let k :=
      if i < 20 then 0x5A827999
      else if i < 40 then 0x6ED9EBA1
      else if i < 60 then 0x8F1BBCDC
      else 0xCA62C1D6
    let t := add32 (add32 (add32 (add32 (rotl a 5) f) e) wi) k
    rounds (i + 1) w ⟨t, a, rotl b 30, c, d⟩

/-- Processes one 64-byte block. -/
def block (s : Digest) (p : List Nat) : Digest :=
  let w := (extend 64 (words p).reverse).reverse
  let r := rounds 0 w s
  ⟨add32 s.h0 r.h0, add32 s.h1 r.h1, add32 s.h2 r.h2, add32 s.h3 r.h3, add32 s.h4 r.h4⟩

/-- Processes the message block by block; `n` is the number of blocks. -/
def blocks : Nat → Digest → List Nat → Digest
  | 0, s, _ => s
  | n + 1, s, p => blocks n (block s (p.take 64)) (p.drop 64)

/-- The 20-byte SHA-1 checksum of a byte string. -/
def sum (msg : List Nat) : List Nat :=
  let p := pad msg
  let s := blocks (p.length / 64) init p
  be32 s.h0 ++ be32 s.h1 ++ be32 s.h2 ++ be32 s.h3 ++ be32 s.h4

end Sha1

/-- The digit alphabet of `hex.EncodeToString`. -/
def hextable : List Char :=
  ['0', '1', '2', '3', '4', '5', '6', '7', '8', '9', 'a', 'b', 'c', 'd', 'e', 'f']

/-- One digit of the alphabet. -/
def hexDigit (n : Nat) : Char :=
  hextable.getD n '0'

/-- The function `hex.EncodeToString`: two digits per byte, high nibble first. -/
def hexEncode : List Nat → List Char
  | [] => []
  | b :: rest => hexDigit (b / 16) :: hexDigit (b % 16) :: hexEncode rest

/-- The bytes `[]byte(input)` of a string. -/
def stringBytes (input : String) : List Nat :=
  (input.data.map fun c => (String.utf8EncodeChar c).map UInt8.toNat).flatten

/-- The function `Sha1Hex`: the SHA-1 checksum of the input, in hexadecimal. -/
def Sha1Hex (input : String) : String :=
  String.mk (hexEncode (Sha1.sum (stringBytes input)))

/-! ## Persistence -/

/-- Outcome of the system calls made by the persistence code: `none` means the
call succeeds. -/
structure Faults where
  mkdirAll : Option GoError
  create : Option GoError
  openFile : Option GoError
  read : Option GoError
  writeFile : Option GoError

/-- The function `dropCR` of `bufio`: drops one trailing carriage return. -/
def dropCR (data : List Char) : List Char :=
  if data.getLast? = some '\r' then data.dropLast else data

/-- The raw tokens `bufio.ScanLines` cuts out of the input before `dropCR`:
the text between line feeds, plus a final unterminated line when it is not
empty. `cur` is the current line read so far, newest character first. -/
def rawLines (cur : List Char) : List Char → List (List Char)
  | [] => if cur = [] then [] else [cur.reverse]
  | c :: cs => if c = '\n' then cur.reverse :: rawLines [] cs else rawLines (c :: cur) cs

/-- Number of bytes of a piece of text. -/
def byteLen (data : List Char) : Nat :=
  (data.map Char.utf8Size).sum

/-- The largest raw line a `bufio.Scanner` with the default buffer accepts:
the line and its line feed must fit in `bufio.MaxScanTokenSize` bytes. -/
def maxLineBytes : Nat :=
  64 * 1024 - 1

/-- The scanner loop of `GetSavedQueue` over the whole file: the records and
the value of `scanner.Err()`. -/
def scanRecords (io : Faults) (content : String) : List String × Option GoError :=
  match io.read with
  | some err => ([], some err)
  | none =>
    let raw := rawLines [] content.data
    if raw.all (fun l => decide (byteLen l ≤ maxLineBytes)) then
      (raw.map fun l => String.mk (dropCR l), none)
    else
      ([], some (GoError.new "bufio.Scanner: token too long"))

namespace Queue

/-- The method `SaveQueue`. The cache file is `file` (`none` when it does not
exist); the result is the file afterwards and the error. -/
def SaveQueue (h : Helpers) (io : Faults) (q : Queue) (file : Option String) :
    Option String × Option GoError :=
  let songPaths := q.GetItems
  let content := songPaths.foldl (fun content songPath => content ++ (Sha1Hex (h.GetName songPath) ++ "\n")) ""
  match io.writeFile with
  | some err => (file, some (GoError.wrap "SaveQueue" err))
  | none => (some content, none)

/-- The method `GetSavedQueue`: the file afterwards, the records and the
error. -/
def GetSavedQueue (io : Faults) (file : Option String) :
    Option String × List String × Option GoError :=
  match file with
  | none =>
    match io.mkdirAll with
    | some err => (none, [], some (GoError.wrap "GetSavedQueue" err))
    | none =>
      match io.create with
      | some err => (none, [], some (GoError.wrap "GetSavedQueue" err))
      | none => (some "", [], none)
  | some content =>
    match io.openFile with
    | some err => (file, [], some (GoError.wrap "GetSavedQueue" err))
    | none =>
      match scanRecords io content with
      | (_, some err) => (file, [], some (GoError.wrap "GetSavedQueue" err))
      | (records, none) => (file, records, none)

/-- The loop of `LoadQueue` over the saved identities; `find` is
`gomu.Playlist.FindAudioFile`, `none` being its nil result. -/
def loadLoop (h : Helpers) (s : Sys) (find : String → Option AudioFile) :
    List String → Queue × Player → Queue × Player
  | [], st => st
  | v :: songs, (q, p) =>
    match find v with
    | some audioFile =>
      let r := Enqueue h s q p audioFile
      loadLoop h s find songs (r.1, r.2.1)
    | none => loadLoop h s find songs (q, p)

/-- The method `LoadQueue`: the queue, the player and the cache file
afterwards, and the error. -/
def LoadQueue (h : Helpers) (s : Sys) (io : Faults) (find : String → Option AudioFile)
    (q : Queue) (p : Player) (file : Option String) :
    Queue × Player × Option String × Option GoError :=
  match GetSavedQueue io file with
  | (file1, _, some err) => (q, p, file1, some (GoError.wrap "LoadQueue" err))
  | (file1, songs, none) =>
    let st := loadLoop h s find songs (q, p)
    (st.1, st.2, file1, none)

end Queue

/-! ## Sequences of calls -/

/-- The title invariant of the queue: the title shows `len(Items)` and the
total length of `Items`. -/
def TitleInSync (h : Helpers) (q : Queue) : Prop :=
  q.list.title = Queue.titleText q.Items.length (h.fmtDuration (Queue.totalLength q.Items))

/-- The display invariant of the queue: one row per track, in order, whose
secondary text is the track's path. -/
def RowsMirrorItems (q : Queue) : Prop :=
  q.GetItems = q.Items.map AudioFile.Path

/-- One call on the queue, with what the call observes of the outside world.
The last constructor is the player collaborator setting its running flag
between two calls. -/
inductive Op where
  | enqueue (s : Sys) (audioFile : AudioFile)
  | dequeue
  | deleteItem (index : Int)
  | pushFront (audioFile : AudioFile)
  | shuffle (s : Sys) (rnd : Nat → Nat)
  | clearQueue
  | playerFlag (running : Bool)

/-- Calls whose duration lookup succeeds; calls other than `enqueue` always
qualify. -/
def Op.lookupOk : Op → Prop
  | .enqueue s audioFile => (s.GetLength audioFile.Path).2 = none
  | _ => True

/-- The state after one call; `none` when the call dies with a runtime failure. -/
def step (h : Helpers) (st : Queue × Player) : Op → Option (Queue × Player)
  | .enqueue s audioFile =>
    let r := Queue.Enqueue h s st.1 st.2 audioFile
    some (r.1, r.2.1)
  | .dequeue => (Queue.Dequeue h st.1).map fun r => (r.1, st.2)
  | .deleteItem index => some ((Queue.DeleteItem h st.1 index).1, st.2)
  | .pushFront audioFile => some (Queue.PushFront h st.1 audioFile, st.2)
  | .shuffle s rnd => some (Queue.Shuffle h s rnd st.1, st.2)
  | .clearQueue => some (Queue.ClearQueue h st.1, st.2)
  | .playerFlag running => some (st.1, { st.2 with IsRunning := running })

/-- The state after a sequence of calls, oldest first. -/
def run (h : Helpers) (st : Queue × Player) : List Op → Option (Queue × Player)
  | [] => some st
  | op :: ops => (step h st op).bind fun st1 => run h st1 ops

/-! ## Key handling -/

/-- The methods of `gomu.Player` that the key handler calls, defined outside
`queue.go`. They act on the player; what the playback goroutine does later is
not part of the handler. -/
structure PlayerApi where
  Skip : Player → Player
  ToggleLoop : Player → Bool × Player

namespace Queue

/-- The method `next`: highlights the next row, going back to row 0 from the
last one. -/
def next (q : Queue) : Queue :=
  let currIndex := q.list.GetCurrentItem
  let idx := if currIndex = q.GetItemCount - 1 then 0 else currIndex + 1
  { q with list := q.list.SetCurrentItem idx }

/-- The method `prev`: asks the widget for the row before the current one. -/
def prev (q : Queue) : Queue :=
  let currIndex := q.list.GetCurrentItem
  { q with list := q.list.SetCurrentItem (currIndex - 1) }

/-- The method `PushFront` called with a pointer that may be nil (`none`). The
result is `none` when the call dies with a runtime failure: with a nil pointer,
reading `audioFile.Length` fails right after `Items` was reassigned. -/
def PushFrontPtr (h : Helpers) (q : Queue) : Option AudioFile → Option Queue
  | some audioFile => some (PushFront h q audioFile)
  | none => none

/-- The input capture installed by `NewQueue`: the state after the handler of
the key has run, `none` when the handler dies with a runtime failure. Logging
and the popup of the loop key leave the queue and the player alone. -/
def inputCapture (h : Helpers) (api : PlayerApi) (s : Sys) (rnd : Nat → Nat)
    (st : Queue × Player) (key : Char) : Option (Queue × Player) :=
  if key = 'j' then some (st.1.next, st.2)
  else if key = 'k' then some (st.1.prev, st.2)
  else if key = 'd' then some ((DeleteItem h st.1 st.1.list.GetCurrentItem).1, st.2)
  else if key = 'D' then some (ClearQueue h st.1, st.2)
  else if key = 'l' then
    let r := DeleteItem h st.1 st.1.list.GetCurrentItem
    (PushFrontPtr h r.1 r.2.1).map fun q1 => (q1, api.Skip st.2)
  else if key = 'z' then some (st.1, (api.ToggleLoop st.2).2)
  else if key = 's' then some (Shuffle h s rnd st.1, st.2)
  else some st

/-- A run of `Enqueue` calls, oldest first, each with what it observes of the
outside world; the values the calls return are dropped. -/
def enqueueCalls (h : Helpers) : List (Sys × AudioFile) → Queue × Player → Queue × Player
  | [], st => st
  | (s, audioFile) :: calls, st =>
    let r := Enqueue h s st.1 st.2 audioFile
    enqueueCalls h calls (r.1, r.2.1)

end Queue

/-- The text of a file made of the given lines, each followed by a line feed. -/
def unlines (lines : List (List Char)) : List Char :=
  (lines.map fun l => l ++ ['\n']).flatten

/-- Calls that keep the display a view of `Items`: an `Enqueue` whose duration
lookup succeeds, a `DeleteItem` with an index of at least -1, and every other
call. -/
def Op.viewSafe : Op → Prop
  | .enqueue s audioFile => (s.GetLength audioFile.Path).2 = none
  | .deleteItem index => -1 ≤ index
  | _ => True

/-! ## Example inputs -/

/-- An example player interface: skipping and toggling leave the model of the
player as it is, the loop flag reads as on. -/
def exApi : PlayerApi :=
  { Skip := fun p => p, ToggleLoop := fun p => (true, p) }

/-- Example helpers: durations print as plain numbers, names are kept. -/
def exHelpers : Helpers :=
  { fmtDuration := fun d => toString d, GetName := fun n => n }

/-- An example track. -/
def trackA : AudioFile :=
  { Name := "a.mp3", Path := "/music/a.mp3", Length := 120 }

/-- Another example track. -/
def trackB : AudioFile :=
  { Name := "b.mp3", Path := "/music/b.mp3", Length := 180 }

/-- A world in which every duration lookup succeeds with 120. -/
def sysOk (test : String) : Sys :=
  { TEST := test, GetLength := fun _ => (120, none) }

/-- A world in which every duration lookup fails. -/
def sysFail (test : String) : Sys :=
  { TEST := test, GetLength := fun _ => (0, some (GoError.new "no such file")) }

/-- A player that is playing a track. -/
def playerBusy : Player :=
  { IsRunning := true, runCalls := [] }

/-- A player that is not playing. -/
def playerIdle : Player :=
  { IsRunning := false, runCalls := [] }

/-- An example catalog holding `trackA` and `trackB`: the first entry whose
identity is the one asked for. -/
def exCatalog (identity : String) : Option AudioFile :=
  [trackA, trackB].find? fun t => decide (Sha1Hex (exHelpers.GetName t.Path) = identity)

/-- System calls that all succeed. -/
def noFaults : Faults :=
  { mkdirAll := none, create := none, openFile := none, read := none, writeFile := none }

/-- The queue holding `trackA` then `trackB`. -/
def queueAB : Queue :=
  Queue.PushFront exHelpers (Queue.PushFront exHelpers (Queue.NewQueue exHelpers) trackB) trackA

/-- The queue after three `Enqueue` calls made while a track is playing: three
rows, the cursor on the first one. -/
def queueEnq3 : Queue :=
  (Queue.Enqueue exHelpers (sysOk "")
    (Queue.Enqueue exHelpers (sysOk "")
      (Queue.Enqueue exHelpers (sysOk "") (Queue.NewQueue exHelpers) playerBusy trackA).1
      playerBusy trackB).1
    playerBusy trackA).1

end Gomu

/-! # Theorems -/

namespace Gomu

open Queue

/-! ## Helper lemmas -/

theorem deleteLoop_miss (index : Int) (l : List AudioFile) :
    ∀ (k : Nat) (acc : List AudioFile) (d : Option AudioFile),
      (∀ j : Nat, j < l.length → ((k + j : Nat) : Int) ≠ index) →
      deleteLoop index k l (acc, d) = (acc ++ l, d) := by
  induction l with
  | nil => intro k acc d _; simp [deleteLoop]
  | cons v rest ih =>
    intro k acc d hk
    have h0 : ((k : Nat) : Int) ≠ index := by
      have := hk 0 (by simp)
      simpa using this
    rw [deleteLoop, if_neg h0, ih]
    · simp
    · intro j hj
      have := hk (j + 1) (by simp; omega)
      intro hc
      apply this
      rw [← hc]
      push_cast
      ring

theorem deleteLoop_hit (index : Int) (l : List AudioFile) :
    ∀ (k : Nat) (acc : List AudioFile) (d : Option AudioFile) (j : Nat),
      j < l.length → index = ((k + j : Nat) : Int) →
      deleteLoop index k l (acc, d) = (acc ++ (l.take j ++ l.drop (j + 1)), l[j]?) := by
  induction l with
  | nil => intro k acc d j hj; simp at hj
  | cons v rest ih =>
    intro k acc d j hj hidx
    cases j with
    | zero =>
      have h0 : ((k : Nat) : Int) = index := by simp [hidx]
      rw [deleteLoop, if_pos h0, deleteLoop_miss]
      · simp
      · intro j _ hc
        rw [hidx] at hc
        have : k + 1 + j = k + 0 := by exact_mod_cast hc
        omega
    | succ j =>
      have h0 : ((k : Nat) : Int) ≠ index := by
        rw [hidx]
        intro hc
        have : k = k + (j + 1) := by exact_mod_cast hc
        omega
      rw [deleteLoop, if_neg h0, ih (k + 1) (acc ++ [v]) d j (by simpa using hj)]
      · simp
      · rw [hidx]
        push_cast
        ring

theorem AddItem_items (l : TviewList) (m t : String) :
    (l.AddItem m t).items = l.items ++ [⟨m, t⟩] := by
  have h0 : ¬ ((l.items.length : Int) < 0) := by omega
  simp [TviewList.AddItem, TviewList.InsertItem, h0]

theorem AddItem_title (l : TviewList) (m t : String) :
    (l.AddItem m t).title = l.title := rfl

theorem InsertItem_zero_items (l : TviewList) (m t : String) :
    (l.InsertItem 0 m t).items = ⟨m, t⟩ :: l.items := by
  have h0 : ¬ ((l.items.length : Int) < 0) := by omega
  simp [TviewList.InsertItem, h0]

theorem set_swap_perm (l : List AudioFile) (i j : Nat) (a b : AudioFile)
    (ha : l[i]? = some a) (hb : l[j]? = some b) : ((l.set i b).set j a).Perm l := by
  obtain ⟨hi, hai⟩ := List.getElem?_eq_some.mp ha
  obtain ⟨hj, hbj⟩ := List.getElem?_eq_some.mp hb
  rw [List.perm_iff_count]
  intro c
  have hj2 : j < (l.set i b).length := by simpa using hj
  have hget : (l.set i b)[j] = b := by
    rw [List.getElem_set]
    split
    · rfl
    · exact hbj
  rw [List.count_set _ _ _ _ hj2, List.count_set _ _ _ _ hi, hget, hai]
  have hca : (if (a == c) = true then 1 else 0) ≤ l.count c := by
    split
    · rename_i hac
      have : a = c := by simpa using hac
      subst this
      exact List.count_pos_iff.mpr (hai ▸ List.getElem_mem hi)
    · omega
  omega

theorem swapItems_perm (items : List AudioFile) (i j : Nat) :
    (swapItems items i j).Perm items := by
  unfold swapItems
  split
  · rename_i a b ha hb
    exact set_swap_perm items i j a b ha hb
  · exact List.Perm.refl _

theorem shuffleLoop_perm (rnd : Nat → Nat) (i : Nat) :
    ∀ items : List AudioFile, (shuffleLoop rnd i items).Perm items := by
  induction i with
  | zero => intro items; exact List.Perm.refl _
  | succ i ih =>
    intro items
    rw [shuffleLoop]
    exact (ih _).trans (swapItems_perm items _ _)

/-! ## Identities and the cache file -/

theorem hexDigit_mem (n : Nat) : hexDigit n ∈ hextable := by
  unfold hexDigit
  rw [List.getD_eq_getElem?_getD]
  cases hn : hextable[n]? with
  | none => simp [hextable]
  | some c => simpa using List.getElem?_mem hn

theorem hexEncode_mem (bs : List Nat) : ∀ c ∈ hexEncode bs, c ∈ hextable := by
  induction bs with
  | nil => intro c hc; simp [hexEncode] at hc
  | cons b rest ih =>
    intro c hc
    simp only [hexEncode, List.mem_cons] at hc
    rcases hc with rfl | rfl | hc
    · exact hexDigit_mem _
    · exact hexDigit_mem _
    · exact ih c hc

theorem hexEncode_length (bs : List Nat) : (hexEncode bs).length = 2 * bs.length := by
  induction bs with
  | nil => rfl
  | cons b rest ih => simp only [hexEncode, List.length_cons, ih]; omega

theorem Sha1_sum_length (msg : List Nat) : (Sha1.sum msg).length = 20 := by
  simp [Sha1.sum, Sha1.be32]

theorem Sha1Hex_length (input : String) : (Sha1Hex input).data.length = 40 := by
  simp [Sha1Hex, hexEncode_length, Sha1_sum_length]

theorem Sha1Hex_mem (input : String) : ∀ c ∈ (Sha1Hex input).data, c ∈ hextable := by
  intro c hc
  exact hexEncode_mem _ c (by simpa [Sha1Hex] using hc)

theorem rawLines_line (l : List Char) (hl : '\n' ∉ l) :
    ∀ cur rest : List Char, rawLines cur (l ++ '\n' :: rest) = (cur.reverse ++ l) :: rawLines [] rest := by
  induction l with
  | nil => intro cur rest; simp [rawLines]
  | cons c cs ih =>
    intro cur rest
    have hc : c ≠ '\n' := fun e => hl (by simp [e])
    have hcs : '\n' ∉ cs := fun e => hl (by simp [e])
    rw [List.cons_append, rawLines, if_neg hc, ih hcs]
    simp

theorem rawLines_lines (ls : List (List Char)) (hls : ∀ l ∈ ls, '\n' ∉ l) :
    rawLines [] (ls.map fun l => l ++ ['\n']).flatten = ls := by
  induction ls with
  | nil => simp [rawLines]
  | cons l rest ih =>
    have h1 : '\n' ∉ l := hls l (by simp)
    have h2 : ∀ l ∈ rest, '\n' ∉ l := fun x hx => hls x (by simp [hx])
    simp only [List.map_cons, List.flatten_cons, List.append_assoc, List.singleton_append]
    rw [rawLines_line l h1, ih h2]
    simp

theorem dropCR_of_hex (l : List Char) (hl : ∀ c ∈ l, c ∈ hextable) : dropCR l = l := by
  unfold dropCR
  split
  · rename_i hlast
    obtain ⟨ys, hys⟩ := List.getLast?_eq_some_iff.mp hlast
    have : '\r' ∈ hextable := hl _ (by simp [hys])
    exact absurd this (by decide)
  · rfl

theorem byteLen_le (l : List Char) : byteLen l ≤ 4 * l.length := by
  induction l with
  | nil => simp [byteLen]
  | cons c cs ih =>
    have := Char.utf8Size_le_four c
    simp only [byteLen, List.map_cons, List.sum_cons, List.length_cons] at ih ⊢
    omega

theorem saveContent_data (h : Helpers) (paths : List String) :
    ∀ init : String,
      (paths.foldl (fun content songPath => content ++ (Sha1Hex (h.GetName songPath) ++ "\n")) init).data
        = init.data ++ (paths.map fun sp => (Sha1Hex (h.GetName sp)).data ++ ['\n']).flatten := by
  induction paths with
  | nil => intro init; simp
  | cons sp rest ih =>
    intro init
    rw [List.foldl_cons, ih]
    simp [String.data_append]

theorem scanRecords_saved (h : Helpers) (io : Faults) (hread : io.read = none) (paths : List String) :
    scanRecords io (paths.foldl (fun content songPath => content ++ (Sha1Hex (h.GetName songPath) ++ "\n")) "")
      = (paths.map fun sp => Sha1Hex (h.GetName sp), none) := by
  have hraw : rawLines [] (paths.foldl
      (fun content songPath => content ++ (Sha1Hex (h.GetName songPath) ++ "\n")) "").data
      = paths.map fun sp => (Sha1Hex (h.GetName sp)).data := by
    rw [saveContent_data]
    have := rawLines_lines (paths.map fun sp => (Sha1Hex (h.GetName sp)).data) (by
      intro l hl
      obtain ⟨sp, _, rfl⟩ := List.mem_map.mp hl
      intro hmem
      exact absurd (Sha1Hex_mem _ _ hmem) (by decide))
    simpa [List.map_map, Function.comp_def] using this
  unfold scanRecords
  rw [hread]
  simp only [hraw]
  have hall : ((paths.map fun sp => (Sha1Hex (h.GetName sp)).data).all
      fun l => decide (byteLen l ≤ maxLineBytes)) = true := by
    rw [List.all_eq_true]
    intro l hl
    obtain ⟨sp, _, rfl⟩ := List.mem_map.mp hl
    have h1 := byteLen_le (Sha1Hex (h.GetName sp)).data
    rw [Sha1Hex_length] at h1
    simp only [decide_eq_true_eq, maxLineBytes]
    omega
  rw [if_pos hall]
  simp only [List.map_map, Prod.mk.injEq, and_true]
  apply List.map_congr_left
  intro sp _
  simp [dropCR_of_hex _ (Sha1Hex_mem _)]

/-! ## The title -/

theorem wrapInt64_add_wrapInt64 (x y : Int) : wrapInt64 (wrapInt64 x + y) = wrapInt64 (x + y) := by
  unfold wrapInt64
  norm_num
  omega

theorem wrapInt64_of_range (x : Int) (hlo : -(2 ^ 63) ≤ x) (hhi : x < 2 ^ 63) : wrapInt64 x = x := by
  unfold wrapInt64
  norm_num at hlo hhi ⊢
  omega

theorem foldl_wrapInt64 (items : List AudioFile) :
    ∀ x : Int, items.foldl (fun acc v => wrapInt64 (acc + v.Length)) (wrapInt64 x)
      = wrapInt64 (x + (items.map AudioFile.Length).sum) := by
  induction items with
  | nil => intro x; simp
  | cons v rest ih =>
    intro x
    rw [List.foldl_cons, wrapInt64_add_wrapInt64, ih]
    simp [add_assoc]

/-- The total shown in the title is the sum of the lengths, reduced to the
signed 64-bit range of `time.Duration`. -/
theorem totalLength_eq_wrap_sum (items : List AudioFile) :
    totalLength items = wrapInt64 (items.map AudioFile.Length).sum := by
  have h0 : wrapInt64 0 = 0 := by decide
  have := foldl_wrapInt64 items 0
  rw [h0] at this
  simpa [totalLength] using this

/-- When the sum of the lengths fits in a `time.Duration`, the total shown in the
title is that sum. -/
theorem totalLength_eq_sum (items : List AudioFile)
    (hlo : -(2 ^ 63) ≤ (items.map AudioFile.Length).sum)
    (hhi : (items.map AudioFile.Length).sum < 2 ^ 63) :
    totalLength items = (items.map AudioFile.Length).sum := by
  rw [totalLength_eq_wrap_sum, wrapInt64_of_range _ hlo hhi]

theorem UpdateTitle_TitleInSync (h : Helpers) (q : Queue) : TitleInSync h (UpdateTitle h q) := rfl

theorem NewQueue_TitleInSync (h : Helpers) : TitleInSync h (NewQueue h) := rfl

/-! ## Enqueue -/

theorem not_bootstrap_of_append {s : Sys} {p : Player}
    (hpath : p.IsRunning = true ∨ s.TEST ≠ "false") :
    ¬ (p.IsRunning = false ∧ "false" = s.TEST) := by
  rintro ⟨h1, h2⟩
  rcases hpath with hp | hp
  · rw [h1] at hp; exact Bool.noConfusion hp
  · exact hp h2.symm

theorem Enqueue_eq_of_append (h : Helpers) (s : Sys) (q : Queue) (p : Player) (audioFile : AudioFile)
    (hpath : p.IsRunning = true ∨ s.TEST ≠ "false")
    (hok : (s.GetLength audioFile.Path).2 = none) :
    (Enqueue h s q p audioFile).1
      = UpdateTitle h { q with
          Items := q.Items ++ [audioFile]
          list := q.list.AddItem
            (itemView h (s.GetLength audioFile.Path).1 (h.GetName audioFile.Name)) audioFile.Path } ∧
    (Enqueue h s q p audioFile).2.1 = p ∧
    (Enqueue h s q p audioFile).2.2.2 = none := by
  unfold Enqueue
  rw [if_neg (not_bootstrap_of_append hpath)]
  rcases hgl : s.GetLength audioFile.Path with ⟨len, e⟩
  rw [hgl] at hok
  simp only at hok
  subst hok
  exact ⟨rfl, rfl, rfl⟩

theorem loadLoop_append (h : Helpers) (s : Sys) (find : String → Option AudioFile) (p : Player)
    (hpath : p.IsRunning = true ∨ s.TEST ≠ "false") (tracks : List AudioFile) :
    ∀ q : Queue,
      (∀ t ∈ tracks, find (Sha1Hex (h.GetName t.Path)) = some t) →
      (∀ t ∈ tracks, (s.GetLength t.Path).2 = none) →
      (loadLoop h s find (tracks.map fun t => Sha1Hex (h.GetName t.Path)) (q, p)).2 = p ∧
      (loadLoop h s find (tracks.map fun t => Sha1Hex (h.GetName t.Path)) (q, p)).1.Items
        = q.Items ++ tracks ∧
      (loadLoop h s find (tracks.map fun t => Sha1Hex (h.GetName t.Path)) (q, p)).1.GetItems
        = q.GetItems ++ tracks.map AudioFile.Path := by
  induction tracks with
  | nil => intro q _ _; simp [loadLoop]
  | cons t rest ih =>
    intro q hcat hlen
    have hfind : find (Sha1Hex (h.GetName t.Path)) = some t := hcat t (by simp)
    have hok : (s.GetLength t.Path).2 = none := hlen t (by simp)
    obtain ⟨e1, e2, _⟩ := Enqueue_eq_of_append h s q p t hpath hok
    simp only [List.map_cons, loadLoop, hfind, e2]
    obtain ⟨r1, r2, r3⟩ := ih (Enqueue h s q p t).1
      (fun x hx => hcat x (by simp [hx])) (fun x hx => hlen x (by simp [hx]))
    refine ⟨r1, ?_, ?_⟩
    · rw [r2, e1]
      simp [UpdateTitle]
    · rw [r3, e1]
      simp [UpdateTitle, GetItems, AddItem_items, TviewList.SetTitle]

/-- C1: on the append path with a failing duration lookup, Enqueue returns the
wrapped error but the queue is not as it was before the call: the track has
already been appended to Items, while the display rows and the title are the
old ones. -/
theorem Enqueue_failed_lookup_partial_state (h : Helpers) (s : Sys) (q : Queue) (p : Player)
    (audioFile : AudioFile) (err : GoError)
    (hpath : p.IsRunning = true ∨ s.TEST ≠ "false")
    (hfail : (s.GetLength audioFile.Path).2 = some err) :
    (Enqueue h s q p audioFile).2.2.2 = some (GoError.wrap "Enqueue" err) ∧
    (Enqueue h s q p audioFile).2.2.1 = 0 ∧
    (Enqueue h s q p audioFile).1.Items = q.Items ++ [audioFile] ∧
    (Enqueue h s q p audioFile).1.list = q.list ∧
    (Enqueue h s q p audioFile).1 ≠ q := by
  have hcond : ¬ (p.IsRunning = false ∧ "false" = s.TEST) := not_bootstrap_of_append hpath
  have hres : Enqueue h s q p audioFile
      = ({ q with Items := q.Items ++ [audioFile] }, p, 0, some (GoError.wrap "Enqueue" err)) := by
    unfold Enqueue
    rw [if_neg hcond]
    rcases hgl : s.GetLength audioFile.Path with ⟨len, e⟩
    rw [hgl] at hfail
    simp only at hfail
    subst hfail
    rfl
  rw [hres]
  refine ⟨rfl, rfl, rfl, rfl, ?_⟩
  intro hq
  have := congrArg (fun x : Queue => x.Items.length) hq
  simp at this

theorem Enqueue_failed_lookup_partial_state_witness :
    (playerBusy.IsRunning = true ∨ (sysFail "").TEST ≠ "false") ∧
    ((sysFail "").GetLength trackA.Path).2 = some (GoError.new "no such file") ∧
    (Enqueue exHelpers (sysFail "") (NewQueue exHelpers) playerBusy trackA).1.Items
      = (NewQueue exHelpers).Items ++ [trackA] ∧
    (Enqueue exHelpers (sysFail "") (NewQueue exHelpers) playerBusy trackA).1 ≠ NewQueue exHelpers :=
  ⟨Or.inl rfl, rfl,
    (Enqueue_failed_lookup_partial_state exHelpers (sysFail "") (NewQueue exHelpers) playerBusy trackA
      (GoError.new "no such file") (Or.inl rfl) rfl).2.2.1,
    (Enqueue_failed_lookup_partial_state exHelpers (sysFail "") (NewQueue exHelpers) playerBusy trackA
      (GoError.new "no such file") (Or.inl rfl) rfl).2.2.2.2⟩

/-- C2: the title invariant breaks after a call that returns. From NewQueue,
with a track playing, an Enqueue whose duration lookup fails leaves one track in
Items while the title still shows count 0 and total length 0. -/
theorem title_out_of_sync_after_failed_Enqueue :
    ∃ st : Queue × Player,
      run exHelpers (NewQueue exHelpers, playerBusy) [Op.enqueue (sysFail "") trackA] = some st ∧
      st.1.Items = [trackA] ∧
      st.1.list.title = titleText 0 (exHelpers.fmtDuration 0) ∧
      ¬ TitleInSync exHelpers st.1 := by
  refine ⟨_, rfl, rfl, rfl, ?_⟩
  unfold TitleInSync
  decide

/-- C3 as stated fails: with the environment variable TEST unset, Enqueue on the
empty queue of NewQueue while nothing is playing appends the track, so
len(Items) grows from 0 to 1, and the player is left as it was: not running and
handed nothing. -/
theorem Enqueue_bootstrap_counterexample :
    (NewQueue exHelpers).Items = [] ∧ playerIdle.IsRunning = false ∧
    (Enqueue exHelpers (sysOk "") (NewQueue exHelpers) playerIdle trackA).1.Items = [trackA] ∧
    (Enqueue exHelpers (sysOk "") (NewQueue exHelpers) playerIdle trackA).2.1 = playerIdle ∧
    ¬ ((Enqueue exHelpers (sysOk "") (NewQueue exHelpers) playerIdle trackA).1.Items.length
          ≤ (NewQueue exHelpers).Items.length ∧
       (Enqueue exHelpers (sysOk "") (NewQueue exHelpers) playerIdle trackA).2.1.IsRunning = true) := by
  decide

/-- C3 (amended): when nothing is playing and the environment variable TEST is
"false", Enqueue on any queue (the empty one included) leaves the queue as it
was, marks the player as running, hands the track to the player, and returns
the unchanged row count with no error. -/
theorem Enqueue_bootstrap (h : Helpers) (s : Sys) (q : Queue) (p : Player) (audioFile : AudioFile)
    (hidle : p.IsRunning = false) (htest : s.TEST = "false") :
    Enqueue h s q p audioFile
      = (q, { IsRunning := true, runCalls := p.runCalls ++ [audioFile] }, q.GetItemCount, none) := by
  unfold Enqueue
  rw [if_pos ⟨hidle, htest.symm⟩]

theorem Enqueue_bootstrap_witness :
    playerIdle.IsRunning = false ∧ (sysOk "false").TEST = "false" ∧
    Enqueue exHelpers (sysOk "false") (NewQueue exHelpers) playerIdle trackA
      = (NewQueue exHelpers, { IsRunning := true, runCalls := [trackA] }, 0, none) :=
  ⟨rfl, rfl, Enqueue_bootstrap exHelpers (sysOk "false") (NewQueue exHelpers) playerIdle trackA rfl rfl⟩

/-- C4 as stated fails: on a non-empty queue, while nothing is playing and TEST
is "false", Enqueue hands the track to the player and Items is unchanged: its
length does not grow and the track is not appended. -/
theorem Enqueue_append_counterexample :
    (PushFront exHelpers (NewQueue exHelpers) trackB).Items = [trackB] ∧
    (Enqueue exHelpers (sysOk "false") (PushFront exHelpers (NewQueue exHelpers) trackB)
        playerIdle trackA).1.Items = [trackB] ∧
    ¬ ((Enqueue exHelpers (sysOk "false") (PushFront exHelpers (NewQueue exHelpers) trackB)
          playerIdle trackA).1.Items
        = (PushFront exHelpers (NewQueue exHelpers) trackB).Items ++ [trackA]) := by
  decide

/-- C4 (amended): if a track is playing or the environment variable TEST is not
"false", and the duration lookup succeeds, then Enqueue appends the track at
the end of Items (the length grows by exactly 1), appends its row, and returns
the new row count with no error. -/
theorem Enqueue_append (h : Helpers) (s : Sys) (q : Queue) (p : Player) (audioFile : AudioFile)
    (hpath : p.IsRunning = true ∨ s.TEST ≠ "false")
    (hok : (s.GetLength audioFile.Path).2 = none) :
    (Enqueue h s q p audioFile).1.Items = q.Items ++ [audioFile] ∧
    (Enqueue h s q p audioFile).1.Items.length = q.Items.length + 1 ∧
    (Enqueue h s q p audioFile).1.GetItems = q.GetItems ++ [audioFile.Path] ∧
    (Enqueue h s q p audioFile).2.1 = p ∧
    (Enqueue h s q p audioFile).2.2.1 = q.GetItemCount + 1 ∧
    (Enqueue h s q p audioFile).2.2.2 = none := by
  have hcond : ¬ (p.IsRunning = false ∧ "false" = s.TEST) := not_bootstrap_of_append hpath
  unfold Enqueue
  rw [if_neg hcond]
  rcases hgl : s.GetLength audioFile.Path with ⟨len, e⟩
  rw [hgl] at hok
  simp only at hok
  subst hok
  simp [UpdateTitle, GetItems, GetItemCount, AddItem_items, TviewList.SetTitle,
    TviewList.GetItemCount]

theorem Enqueue_append_witness :
    (playerBusy.IsRunning = true ∨ (sysOk "false").TEST ≠ "false") ∧
    ((sysOk "false").GetLength trackA.Path).2 = none ∧
    (Enqueue exHelpers (sysOk "false") (NewQueue exHelpers) playerBusy trackA).1.Items
      = (NewQueue exHelpers).Items ++ [trackA] :=
  ⟨Or.inl rfl, rfl,
    (Enqueue_append exHelpers (sysOk "false") (NewQueue exHelpers) playerBusy trackA (Or.inl rfl) rfl).1⟩

/-! ## DeleteItem -/

theorem DeleteItem_eq_of_in_range (h : Helpers) (q : Queue) (i : Int)
    (h0 : 0 ≤ i) (h1 : i < (q.Items.length : Int)) :
    DeleteItem h q i
      = (UpdateTitle h { q with
            list := q.list.RemoveItem i
            Items := q.Items.take i.toNat ++ q.Items.drop (i.toNat + 1) },
          q.Items[i.toNat]?, none) := by
  have hlt : i.toNat < q.Items.length := by omega
  have hg : ¬ (i > (q.Items.length : Int) - 1) := by omega
  have hne : i ≠ -1 := by omega
  have hloop := deleteLoop_hit i q.Items 0 [] none i.toNat hlt (by simp; omega)
  unfold DeleteItem
  rw [if_neg hg, if_pos hne]
  simp only [hloop, List.nil_append]

/-- C5: for an index i with 0 <= i < len(Items), DeleteItem returns the track
that was at position i with no error, and the new Items are the elements before
i followed by the elements after i, in their original order; the length drops by
exactly 1. -/
theorem DeleteItem_in_range (h : Helpers) (q : Queue) (i : Int)
    (h0 : 0 ≤ i) (h1 : i < (q.Items.length : Int)) :
    (DeleteItem h q i).2.1 = q.Items[i.toNat]? ∧
    q.Items[i.toNat]? ≠ none ∧
    (DeleteItem h q i).2.2 = none ∧
    (DeleteItem h q i).1.Items = q.Items.take i.toNat ++ q.Items.drop (i.toNat + 1) ∧
    (DeleteItem h q i).1.Items.length + 1 = q.Items.length := by
  have hlt : i.toNat < q.Items.length := by omega
  rw [DeleteItem_eq_of_in_range h q i h0 h1]
  refine ⟨rfl, ?_, rfl, rfl, ?_⟩
  · simp [hlt]
  · simp [UpdateTitle]
    omega

theorem DeleteItem_in_range_witness :
    (0 : Int) ≤ 1 ∧
    (1 : Int) < ((PushFront exHelpers (PushFront exHelpers (NewQueue exHelpers) trackB) trackA).Items.length : Int) ∧
    (DeleteItem exHelpers (PushFront exHelpers (PushFront exHelpers (NewQueue exHelpers) trackB) trackA) 1).2.1
      = some trackB :=
  ⟨by decide, by decide,
    (DeleteItem_in_range exHelpers (PushFront exHelpers (PushFront exHelpers (NewQueue exHelpers) trackB) trackA) 1
      (by decide) (by decide)).1⟩

/-- C6: on every queue, the empty one included, DeleteItem(-1) returns no track
and no error and leaves the whole queue (Items, rows, cursor and title) as it
was. -/
theorem DeleteItem_sentinel (h : Helpers) (q : Queue) :
    DeleteItem h q (-1) = (q, none, none) := by
  have hg : ¬ ((-1 : Int) > (q.Items.length : Int) - 1) := by omega
  unfold DeleteItem
  rw [if_neg hg]
  simp

/-- C7: DeleteItem returns an error exactly when index >= len(Items); whenever it
returns an error it returns no track and leaves the whole queue as it was. -/
theorem DeleteItem_error_iff (h : Helpers) (q : Queue) (index : Int) :
    ((DeleteItem h q index).2.2 ≠ none ↔ (q.Items.length : Int) ≤ index) ∧
    ((DeleteItem h q index).2.2 ≠ none →
      (DeleteItem h q index).2.2 = some (GoError.new "Index out of range") ∧
      (DeleteItem h q index).2.1 = none ∧ (DeleteItem h q index).1 = q) := by
  by_cases hg : index > (q.Items.length : Int) - 1
  · have hres : DeleteItem h q index = (q, none, some (GoError.new "Index out of range")) := by
      unfold DeleteItem
      rw [if_pos hg]
    rw [hres]
    refine ⟨⟨fun _ => by omega, fun _ => by simp⟩, fun _ => ⟨rfl, rfl, rfl⟩⟩
  · have herr : (DeleteItem h q index).2.2 = none := by
      unfold DeleteItem
      rw [if_neg hg]
      split <;> rfl
    rw [herr]
    refine ⟨⟨fun hc => absurd rfl hc, fun hc => by omega⟩, fun hc => absurd rfl hc⟩

theorem DeleteItem_error_iff_witness :
    (DeleteItem exHelpers queueAB 2).2.2 ≠ none ∧
    (DeleteItem exHelpers queueAB 2).2.1 = none ∧
    (DeleteItem exHelpers queueAB 2).1 = queueAB :=
  ⟨(DeleteItem_error_iff exHelpers queueAB 2).1.mpr (by decide),
    ((DeleteItem_error_iff exHelpers queueAB 2).2
      ((DeleteItem_error_iff exHelpers queueAB 2).1.mpr (by decide))).2⟩

/-! ## Dequeue -/

/-- Dequeue when the display has as many rows as there are tracks: on the empty
queue it returns the empty-queue error and changes nothing; otherwise it returns
the first track with no error and Items loses its first element. -/
theorem Dequeue_of_row_count (h : Helpers) (q : Queue)
    (hrows : q.list.items.length = q.Items.length) :
    (q.Items = [] → Dequeue h q = some (q, none, some (GoError.new "Empty list\n"))) ∧
    (∀ first rest, q.Items = first :: rest →
      ∃ q1, Dequeue h q = some (q1, some first, none) ∧ q1.Items = rest) := by
  constructor
  · intro hnil
    have : q.GetItemCount = 0 := by
      simp [GetItemCount, TviewList.GetItemCount, hrows, hnil]
    unfold Dequeue
    rw [if_pos this]
  · intro first rest hcons
    have hcount : ¬ q.GetItemCount = 0 := by
      simp only [GetItemCount, TviewList.GetItemCount, hrows, hcons, List.length_cons]
      omega
    have hdel := DeleteItem_eq_of_in_range h q 0 (le_refl 0) (by simp [hcons])
    refine ⟨UpdateTitle h (DeleteItem h q 0).1, ?_, ?_⟩
    · unfold Dequeue
      rw [if_neg hcount]
      simp [hcons]
    · rw [hdel]
      simp [UpdateTitle, hcons]

/-- C8: a state reached from NewQueue in which Dequeue reports an empty queue
although Items is not empty. After an Enqueue whose duration lookup failed,
Items holds the track but the display has no row, and Dequeue, which tests the
row count, returns the empty-queue error and removes nothing. -/
theorem Dequeue_error_with_track_queued :
    ∃ st : Queue × Player,
      run exHelpers (NewQueue exHelpers, playerBusy) [Op.enqueue (sysFail "") trackA] = some st ∧
      st.1.Items = [trackA] ∧
      Dequeue exHelpers st.1 = some (st.1, none, some (GoError.new "Empty list\n")) :=
  ⟨_, rfl, rfl, rfl⟩

/-! ## Shuffle -/

/-- C9: for every outcome of the random source, the Items after Shuffle are a
permutation of the Items before it. -/
theorem Shuffle_perm (h : Helpers) (s : Sys) (rnd : Nat → Nat) (q : Queue) :
    (Shuffle h s rnd q).Items.Perm q.Items := by
  simp only [Shuffle, UpdateTitle]
  exact shuffleLoop_perm rnd _ q.Items

/-! ## SaveQueue and LoadQueue -/

theorem SaveQueue_ok (h : Helpers) (io : Faults) (q : Queue) (file : Option String)
    (hwrite : io.writeFile = none) :
    SaveQueue h io q file
      = (some (q.GetItems.foldl
          (fun content songPath => content ++ (Sha1Hex (h.GetName songPath) ++ "\n")) ""), none) := by
  unfold SaveQueue
  rw [hwrite]

theorem LoadQueue_after_SaveQueue (h : Helpers) (s : Sys) (io : Faults)
    (find : String → Option AudioFile) (q q0 : Queue) (p : Player) (file : Option String)
    (hrows : RowsMirrorItems q)
    (hwrite : io.writeFile = none) (hopen : io.openFile = none) (hread : io.read = none) :
    (LoadQueue h s io find q0 p (SaveQueue h io q file).1).2.2.2 = none ∧
    ((LoadQueue h s io find q0 p (SaveQueue h io q file).1).1,
      (LoadQueue h s io find q0 p (SaveQueue h io q file).1).2.1)
      = loadLoop h s find (q.Items.map fun t => Sha1Hex (h.GetName t.Path)) (q0, p) := by
  rw [SaveQueue_ok h io q file hwrite]
  unfold RowsMirrorItems at hrows
  simp only [LoadQueue, GetSavedQueue, hopen, scanRecords_saved h io hread, hrows, List.map_map,
    Function.comp_def]
  exact ⟨trivial, trivial⟩

theorem loadLoop_bootstrap (h : Helpers) (s : Sys) (find : String → Option AudioFile) (p : Player)
    (hidle : p.IsRunning = false) (htest : s.TEST = "false") (tracks : List AudioFile) (q : Queue)
    (hcat : ∀ t ∈ tracks, find (Sha1Hex (h.GetName t.Path)) = some t)
    (hlen : ∀ t ∈ tracks, (s.GetLength t.Path).2 = none) :
    (loadLoop h s find (tracks.map fun t => Sha1Hex (h.GetName t.Path)) (q, p)).2.runCalls
      = p.runCalls ++ tracks.take 1 ∧
    (loadLoop h s find (tracks.map fun t => Sha1Hex (h.GetName t.Path)) (q, p)).1.Items
      = q.Items ++ tracks.tail ∧
    (loadLoop h s find (tracks.map fun t => Sha1Hex (h.GetName t.Path)) (q, p)).1.GetItems
      = q.GetItems ++ tracks.tail.map AudioFile.Path := by
  cases tracks with
  | nil => simp [loadLoop]
  | cons t rest =>
    have hfind : find (Sha1Hex (h.GetName t.Path)) = some t := hcat t (by simp)
    have hboot : Enqueue h s q p t
        = (q, { IsRunning := true, runCalls := p.runCalls ++ [t] }, q.GetItemCount, none) := by
      unfold Enqueue
      rw [if_pos ⟨hidle, htest.symm⟩]
    simp only [List.map_cons, loadLoop, hfind, hboot]
    obtain ⟨r1, r2, r3⟩ := loadLoop_append h s find
      { IsRunning := true, runCalls := p.runCalls ++ [t] } (Or.inl rfl) rest q
      (fun x hx => hcat x (by simp [hx])) (fun x hx => hlen x (by simp [hx]))
    refine ⟨?_, ?_, ?_⟩
    · rw [r1]; simp
    · rw [r2]; simp
    · rw [r3]; simp

/-- C10 (amended): for a queue whose rows mirror its Items, whose tracks all
resolve in the catalog from their saved identity and whose durations can be
looked up, a SaveQueue that writes the cache file followed by LoadQueue on a
fresh queue reads the file back without error and restores the tracks in
order. When nothing is playing and TEST is "false" the first track is handed to
the player and the rest become Items; in every other case all the tracks become
Items and the player is untouched. Either way the names of the handed-over
track followed by the restored Items are the names of the saved Items, and the
rows of the restored queue mirror its Items. -/
theorem SaveQueue_LoadQueue_round_trip (h : Helpers) (s : Sys) (io : Faults)
    (find : String → Option AudioFile) (q : Queue) (p : Player) (file : Option String)
    (hrows : RowsMirrorItems q)
    (hcat : ∀ t ∈ q.Items, find (Sha1Hex (h.GetName t.Path)) = some t)
    (hlen : ∀ t ∈ q.Items, (s.GetLength t.Path).2 = none)
    (hwrite : io.writeFile = none) (hopen : io.openFile = none) (hread : io.read = none) :
    (SaveQueue h io q file).2 = none ∧
    (LoadQueue h s io find (NewQueue h) p (SaveQueue h io q file).1).2.2.2 = none ∧
    (p.IsRunning = false ∧ s.TEST = "false" →
      (LoadQueue h s io find (NewQueue h) p (SaveQueue h io q file).1).1.Items = q.Items.tail ∧
      (LoadQueue h s io find (NewQueue h) p (SaveQueue h io q file).1).2.1.runCalls
        = p.runCalls ++ q.Items.take 1) ∧
    (¬ (p.IsRunning = false ∧ s.TEST = "false") →
      (LoadQueue h s io find (NewQueue h) p (SaveQueue h io q file).1).1.Items = q.Items ∧
      (LoadQueue h s io find (NewQueue h) p (SaveQueue h io q file).1).2.1 = p) ∧
    ((LoadQueue h s io find (NewQueue h) p (SaveQueue h io q file).1).2.1.runCalls.drop
          p.runCalls.length
        ++ (LoadQueue h s io find (NewQueue h) p (SaveQueue h io q file).1).1.Items).map
        AudioFile.Name
      = q.Items.map AudioFile.Name ∧
    RowsMirrorItems (LoadQueue h s io find (NewQueue h) p (SaveQueue h io q file).1).1 := by
  obtain ⟨herr, hst⟩ :=
    LoadQueue_after_SaveQueue h s io find q (NewQueue h) p file hrows hwrite hopen hread
  have hq : (LoadQueue h s io find (NewQueue h) p (SaveQueue h io q file).1).1
      = (loadLoop h s find (q.Items.map fun t => Sha1Hex (h.GetName t.Path)) (NewQueue h, p)).1 :=
    congrArg Prod.fst hst
  have hp : (LoadQueue h s io find (NewQueue h) p (SaveQueue h io q file).1).2.1
      = (loadLoop h s find (q.Items.map fun t => Sha1Hex (h.GetName t.Path)) (NewQueue h, p)).2 :=
    congrArg Prod.snd hst
  have hnew : (NewQueue h).Items = [] := rfl
  have hnewRows : (NewQueue h).GetItems = [] := rfl
  rw [hq, hp]
  by_cases hb : p.IsRunning = false ∧ s.TEST = "false"
  · obtain ⟨r1, r2, r3⟩ := loadLoop_bootstrap h s find p hb.1 hb.2 q.Items (NewQueue h) hcat hlen
    refine ⟨by rw [SaveQueue_ok h io q file hwrite], herr, fun _ => ⟨by rw [r2, hnew]; rfl, r1⟩,
      fun hn => absurd hb hn, ?_, ?_⟩
    · rw [r1, r2, hnew]
      cases q.Items <;> simp
    · unfold RowsMirrorItems
      rw [r3, r2, hnew, hnewRows]
      rfl
  · have hpath : p.IsRunning = true ∨ s.TEST ≠ "false" := by
      by_cases hr : p.IsRunning = true
      · exact Or.inl hr
      · right
        intro ht
        exact hb ⟨by simpa using hr, ht⟩
    obtain ⟨r1, r2, r3⟩ := loadLoop_append h s find p hpath q.Items (NewQueue h) hcat hlen
    refine ⟨by rw [SaveQueue_ok h io q file hwrite], herr, fun hn => absurd hn hb,
      fun _ => ⟨by rw [r2, hnew]; rfl, r1⟩, ?_, ?_⟩
    · rw [r1, r2, hnew]
      simp
    · unfold RowsMirrorItems
      rw [r3, r2, hnew, hnewRows]
      rfl

theorem queueAB_rows : RowsMirrorItems queueAB := by
  unfold RowsMirrorItems
  decide

set_option maxRecDepth 1000000 in
theorem Sha1Hex_abc : Sha1Hex "abc" = "a9993e364706816aba3e25717850c26c9cd0d89d" := by
  decide

set_option maxRecDepth 1000000 in
theorem exCatalog_resolves :
    ∀ t ∈ queueAB.Items, exCatalog (Sha1Hex (exHelpers.GetName t.Path)) = some t := by
  decide

/-- C10 as stated fails: with the environment variable TEST unset and nothing
playing, saving the queue of two tracks and loading it into a fresh queue
appends both restored tracks to Items and leaves the player as it was; the first
track is not handed to the player. -/
theorem round_trip_counterexample :
    playerIdle.IsRunning = false ∧
    (LoadQueue exHelpers (sysOk "") noFaults exCatalog (NewQueue exHelpers) playerIdle
        (SaveQueue exHelpers noFaults queueAB none).1).1.Items = [trackA, trackB] ∧
    (LoadQueue exHelpers (sysOk "") noFaults exCatalog (NewQueue exHelpers) playerIdle
        (SaveQueue exHelpers noFaults queueAB none).1).2.1 = playerIdle ∧
    ¬ ((LoadQueue exHelpers (sysOk "") noFaults exCatalog (NewQueue exHelpers) playerIdle
          (SaveQueue exHelpers noFaults queueAB none).1).2.1.runCalls = [trackA] ∧
       (LoadQueue exHelpers (sysOk "") noFaults exCatalog (NewQueue exHelpers) playerIdle
          (SaveQueue exHelpers noFaults queueAB none).1).1.Items = [trackB]) := by
  obtain ⟨_, hst⟩ := LoadQueue_after_SaveQueue exHelpers (sysOk "") noFaults exCatalog queueAB
    (NewQueue exHelpers) playerIdle none queueAB_rows rfl rfl rfl
  obtain ⟨r1, r2, _⟩ := loadLoop_append exHelpers (sysOk "") exCatalog playerIdle
    (Or.inr (by decide)) queueAB.Items (NewQueue exHelpers) exCatalog_resolves (fun _ _ => rfl)
  have hq := congrArg Prod.fst hst
  have hp := congrArg Prod.snd hst
  simp only at hq hp
  rw [hq, hp, r1, r2]
  refine ⟨rfl, by decide, rfl, ?_⟩
  rintro ⟨hrun, _⟩
  exact absurd hrun (by decide)

theorem SaveQueue_LoadQueue_round_trip_witness :
    RowsMirrorItems queueAB ∧
    (playerIdle.IsRunning = false ∧ (sysOk "false").TEST = "false") ∧
    (LoadQueue exHelpers (sysOk "false") noFaults exCatalog (NewQueue exHelpers) playerIdle
        (SaveQueue exHelpers noFaults queueAB none).1).2.1.runCalls
      = playerIdle.runCalls ++ queueAB.Items.take 1 :=
  ⟨queueAB_rows, ⟨rfl, rfl⟩,
    ((SaveQueue_LoadQueue_round_trip exHelpers (sysOk "false") noFaults exCatalog queueAB playerIdle none
      queueAB_rows exCatalog_resolves (fun _ _ => rfl) rfl rfl rfl).2.2.1 ⟨rfl, rfl⟩).2⟩

/-! ## The title over sequences of calls -/

/-- One call keeps the title in step with Items, unless it is an Enqueue whose
duration lookup fails. -/
theorem step_TitleInSync (h : Helpers) (st st1 : Queue × Player) (op : Op)
    (hinv : TitleInSync h st.1) (hok : op.lookupOk) (hstep : step h st op = some st1) :
    TitleInSync h st1.1 := by
  cases op with
  | enqueue s audioFile =>
    simp only [step, Option.some.injEq] at hstep
    subst hstep
    by_cases hb : st.2.IsRunning = false ∧ "false" = s.TEST
    · have : (Enqueue h s st.1 st.2 audioFile).1 = st.1 := by
        unfold Enqueue
        rw [if_pos hb]
      simpa [this] using hinv
    · have hpath : st.2.IsRunning = true ∨ s.TEST ≠ "false" := by
        by_cases hr : st.2.IsRunning = true
        · exact Or.inl hr
        · right
          intro ht
          exact hb ⟨by simpa using hr, ht.symm⟩
      have e1 := (Enqueue_eq_of_append h s st.1 st.2 audioFile hpath hok).1
      simp only [e1]
      exact UpdateTitle_TitleInSync h _
  | dequeue =>
    simp only [step, Option.map_eq_some', Dequeue] at hstep
    obtain ⟨r, hr, rfl⟩ := hstep
    split at hr
    · simp only [Option.some.injEq] at hr
      subst hr
      exact hinv
    · split at hr
      · exact absurd hr (by simp)
      · simp only [Option.some.injEq] at hr
        subst hr
        exact UpdateTitle_TitleInSync h _
  | deleteItem index =>
    simp only [step, Option.some.injEq] at hstep
    subst hstep
    simp only [DeleteItem]
    split
    · exact hinv
    · split
      · exact UpdateTitle_TitleInSync h _
      · exact hinv
  | pushFront audioFile =>
    simp only [step, Option.some.injEq] at hstep
    subst hstep
    exact UpdateTitle_TitleInSync h _
  | shuffle s rnd =>
    simp only [step, Option.some.injEq] at hstep
    subst hstep
    exact UpdateTitle_TitleInSync h _
  | clearQueue =>
    simp only [step, Option.some.injEq] at hstep
    subst hstep
    exact UpdateTitle_TitleInSync h _
  | playerFlag running =>
    simp only [step, Option.some.injEq] at hstep
    subst hstep
    exact hinv

/-- From NewQueue, every sequence of calls in which no duration lookup of
Enqueue fails ends with the title in step with Items. -/
theorem run_TitleInSync (h : Helpers) (ops : List Op) :
    ∀ (st st1 : Queue × Player), TitleInSync h st.1 → (∀ op ∈ ops, op.lookupOk) →
      run h st ops = some st1 → TitleInSync h st1.1 := by
  induction ops with
  | nil =>
    intro st st1 hinv _ hrun
    simp only [run, Option.some.injEq] at hrun
    subst hrun
    exact hinv
  | cons op rest ih =>
    intro st st1 hinv hok hrun
    simp only [run, Option.bind_eq_some] at hrun
    obtain ⟨st2, hstep, hrest⟩ := hrun
    exact ih st2 st1 (step_TitleInSync h st st2 op hinv (hok op (by simp)) hstep)
      (fun o ho => hok o (by simp [ho])) hrest

/-! ## LoadQueue and GetSavedQueue -/

theorem loadLoop_eq_enqueueCalls (h : Helpers) (s : Sys) (find : String → Option AudioFile)
    (songs : List String) :
    ∀ st : Queue × Player,
      loadLoop h s find songs st
        = enqueueCalls h ((songs.filterMap find).map fun audioFile => (s, audioFile)) st := by
  induction songs with
  | nil => intro st; rfl
  | cons v rest ih =>
    intro st
    obtain ⟨q, p⟩ := st
    cases hv : find v with
    | none => simp only [loadLoop, hv, List.filterMap_cons, ih]
    | some audioFile =>
      simp only [loadLoop, hv, List.filterMap_cons, List.map_cons, enqueueCalls, ih]

/-- C11: when GetSavedQueue returns the saved identities without error,
LoadQueue returns no error, and the queue and the player it leaves are those
obtained by calling Enqueue on exactly the tracks the catalog resolves, one per
resolvable identity and in the order of the identities; identities that do not
resolve contribute no call, and when none resolves nothing changes. -/
theorem LoadQueue_enqueues_resolved (h : Helpers) (s : Sys) (io : Faults)
    (find : String → Option AudioFile) (q : Queue) (p : Player) (file : Option String)
    (hread : (GetSavedQueue io file).2.2 = none) :
    (LoadQueue h s io find q p file).2.2.2 = none ∧
    ((LoadQueue h s io find q p file).1, (LoadQueue h s io find q p file).2.1)
      = enqueueCalls h
          (((GetSavedQueue io file).2.1.filterMap find).map fun audioFile => (s, audioFile)) (q, p) ∧
    ((∀ v ∈ (GetSavedQueue io file).2.1, find v = none) →
      (LoadQueue h s io find q p file).1 = q ∧ (LoadQueue h s io find q p file).2.1 = p) := by
  rcases hg : GetSavedQueue io file with ⟨file1, songs, err⟩
  rw [hg] at hread
  simp only at hread
  subst hread
  have hres : LoadQueue h s io find q p file
      = ((loadLoop h s find songs (q, p)).1, (loadLoop h s find songs (q, p)).2, file1, none) := by
    unfold LoadQueue
    rw [hg]
  rw [hres]
  refine ⟨rfl, ?_, ?_⟩
  · simp only [loadLoop_eq_enqueueCalls]
  · intro hnone
    have hnil : songs.filterMap find = [] := by
      rw [List.filterMap_eq_nil_iff]
      exact hnone
    simp only [loadLoop_eq_enqueueCalls, hnil, List.map_nil, enqueueCalls, and_self]

theorem LoadQueue_enqueues_resolved_witness :
    (GetSavedQueue noFaults (some "zz\n")).2.2 = none ∧
    (LoadQueue exHelpers (sysOk "false") noFaults (fun _ => some trackA) (NewQueue exHelpers)
        playerBusy (some "zz\n")).2.2.2 = none :=
  ⟨by decide,
    (LoadQueue_enqueues_resolved exHelpers (sysOk "false") noFaults (fun _ => some trackA)
      (NewQueue exHelpers) playerBusy (some "zz\n") (by decide)).1⟩

theorem rawLines_no_newline (data : List Char) :
    ∀ cur : List Char, '\n' ∉ cur → ∀ l ∈ rawLines cur data, '\n' ∉ l := by
  induction data with
  | nil =>
    intro cur hcur l hl
    unfold rawLines at hl
    split at hl
    · simp at hl
    · simp only [List.mem_singleton] at hl
      subst hl
      simpa using hcur
  | cons c cs ih =>
    intro cur hcur l hl
    unfold rawLines at hl
    split at hl
    · simp only [List.mem_cons] at hl
      rcases hl with rfl | hl
      · simpa using hcur
      · exact ih [] (by simp) l hl
    · rename_i hc
      exact ih (c :: cur) (by
        intro hmem
        simp only [List.mem_cons] at hmem
        rcases hmem with e | e
        · exact hc e.symm
        · exact hcur e) l hl

theorem rawLines_unlines (data : List Char) :
    ∀ cur : List Char,
      unlines (rawLines cur data)
        = if data.getLast? = some '\n' then cur.reverse ++ data
          else if cur.reverse ++ data = [] then [] else cur.reverse ++ data ++ ['\n'] := by
  induction data with
  | nil =>
    intro cur
    by_cases hcur : cur = []
    · simp [rawLines, unlines, hcur]
    · simp [rawLines, unlines, hcur]
  | cons c cs ih =>
    intro cur
    by_cases hc : c = '\n'
    · subst hc
      have hstep : unlines (rawLines cur ('\n' :: cs))
          = cur.reverse ++ '\n' :: unlines (rawLines [] cs) := by
        simp [rawLines, unlines]
      rw [hstep, ih []]
      cases cs with
      | nil => simp
      | cons d ds =>
        have hlast : ('\n' :: d :: ds).getLast? = (d :: ds).getLast? := by simp [List.getLast?_cons_cons]
        rw [hlast]
        by_cases hl : (d :: ds).getLast? = some '\n'
        · simp [hl]
        · simp [hl]
    · have hstep : rawLines cur (c :: cs) = rawLines (c :: cur) cs := by
        rw [rawLines, if_neg hc]
      rw [hstep, ih (c :: cur)]
      cases cs with
      | nil => simp [hc]
      | cons d ds =>
        have hlast : (c :: d :: ds).getLast? = (d :: ds).getLast? := by simp [List.getLast?_cons_cons]
        rw [hlast]
        by_cases hl : (d :: ds).getLast? = some '\n'
        · simp [hl]
        · simp [hl]

/-- C12 as stated fails: for the file with the lines "a", "" and "b",
GetSavedQueue returns three records, the empty line among them. -/
theorem GetSavedQueue_keeps_empty_lines :
    GetSavedQueue noFaults (some "a\n\nb\n") = (some "a\n\nb\n", ["a", "", "b"], none) ∧
    "" ∈ (GetSavedQueue noFaults (some "a\n\nb\n")).2.1 := by
  decide

/-- C12 (amended): for an existing cache file that can be opened and read and
whose lines fit the scanner's buffer, GetSavedQueue returns no error and one
record per line of the file, in file order, empty lines included. The lines are
the stretches between line feeds (no line holds a line feed, and the lines,
each followed by a line feed, spell the content, completed by a final line feed
when it lacks one); a record is its line without one trailing carriage
return. -/
theorem GetSavedQueue_existing_file (io : Faults) (content : String)
    (hopen : io.openFile = none) (hread : io.read = none)
    (hfit : ∀ l ∈ rawLines [] content.data, byteLen l ≤ maxLineBytes) :
    GetSavedQueue io (some content)
      = (some content, (rawLines [] content.data).map (fun l => String.mk (dropCR l)), none) ∧
    (∀ l ∈ rawLines [] content.data, '\n' ∉ l) ∧
    unlines (rawLines [] content.data)
      = (if content.data.getLast? = some '\n' ∨ content.data = [] then content.data
         else content.data ++ ['\n']) := by
  refine ⟨?_, rawLines_no_newline content.data [] (by simp), ?_⟩
  · have hall : ((rawLines [] content.data).all fun l => decide (byteLen l ≤ maxLineBytes)) = true := by
      rw [List.all_eq_true]
      intro l hl
      simpa using hfit l hl
    simp only [GetSavedQueue, hopen, scanRecords, hread, hall, if_true]
  · rw [rawLines_unlines]
    by_cases h1 : content.data.getLast? = some '\n'
    · simp [h1]
    · by_cases h2 : content.data = []
      · simp [h2]
      · simp [h1, h2]

theorem GetSavedQueue_existing_file_witness :
    noFaults.openFile = none ∧ noFaults.read = none ∧
    (∀ l ∈ rawLines [] ("a\n\nb\n" : String).data, byteLen l ≤ maxLineBytes) ∧
    GetSavedQueue noFaults (some "a\n\nb\n")
      = (some "a\n\nb\n",
          (rawLines [] ("a\n\nb\n" : String).data).map (fun l => String.mk (dropCR l)), none) :=
  ⟨rfl, rfl, by decide,
    (GetSavedQueue_existing_file noFaults "a\n\nb\n" rfl rfl (by decide)).1⟩

/-! ## PushFront, ClearQueue and the cursor -/

/-- C13: for every queue and every non-nil track, PushFront returns (it does not
fail), the new Items are the track followed by the old Items, the track's row
is the first display row with the old rows after it in their order, and the
title shows the new count and total length. -/
theorem PushFront_front (h : Helpers) (q : Queue) (audioFile : AudioFile) :
    PushFrontPtr h q (some audioFile) = some (PushFront h q audioFile) ∧
    (PushFront h q audioFile).Items = audioFile :: q.Items ∧
    (PushFront h q audioFile).list.items
      = ⟨itemView h audioFile.Length (h.GetName audioFile.Name), audioFile.Path⟩ :: q.list.items ∧
    TitleInSync h (PushFront h q audioFile) := by
  refine ⟨rfl, rfl, ?_, UpdateTitle_TitleInSync h _⟩
  simp [PushFront, UpdateTitle, TviewList.SetTitle, InsertItem_zero_items]

/-- C17: ClearQueue leaves Items empty, the display list empty and a title that
shows count 0 and total length 0; calling it twice gives the same queue as
calling it once. -/
theorem ClearQueue_idempotent (h : Helpers) (q : Queue) :
    (ClearQueue h q).Items = [] ∧
    (ClearQueue h q).list.items = [] ∧
    (ClearQueue h q).list.title = titleText 0 (h.fmtDuration 0) ∧
    ClearQueue h (ClearQueue h q) = ClearQueue h q :=
  ⟨rfl, rfl, rfl, rfl⟩

theorem clampIndex_of_in_range (n : Nat) (index : Int) (h0 : 0 ≤ index) (h1 : index < (n : Int)) :
    TviewList.clampIndex n index = index := by
  have a : ¬ index < 0 := by omega
  have b : ¬ index ≥ (n : Int) := by omega
  simp [TviewList.clampIndex, a, b]

/-- The widget counts a negative index from the back, so prev on the first row
of a non-empty list, which asks for row -1, lands on the last row. -/
theorem prev_at_first_row (q : Queue) (hrows : 1 ≤ q.list.items.length)
    (hcur : q.list.currentItem = 0) :
    q.prev.list.currentItem = (q.list.items.length : Int) - 1 := by
  simp only [prev, TviewList.GetCurrentItem, TviewList.SetCurrentItem, hcur, TviewList.clampIndex]
  split_ifs <;> omega

/-- C16 as stated fails: on a queue of three rows with the cursor on row 0, prev
does not leave the cursor at -1 nor keep it on row 0; the cursor wraps around
to the last row, row 2. Items is unchanged. -/
theorem prev_wraps_counterexample :
    queueEnq3.list.items.length = 3 ∧
    queueEnq3.list.currentItem = 0 ∧
    queueEnq3.prev.list.currentItem = 2 ∧
    ¬ (queueEnq3.prev.list.currentItem = queueEnq3.list.currentItem - 1) ∧
    queueEnq3.prev.Items = queueEnq3.Items := by
  decide

/-- C16 (amended): with n >= 1 rows and the cursor at c, 0 <= c < n, next moves
the cursor to c+1 when c < n-1 and to 0 when c = n-1; prev moves the cursor to
c-1 when c >= 1 and to the last row n-1 when c = 0; neither next nor prev
changes Items or the rows. -/
theorem next_prev_cursor (q : Queue) (hrows : 1 ≤ q.list.items.length)
    (h0 : 0 ≤ q.list.currentItem) (h1 : q.list.currentItem < (q.list.items.length : Int)) :
    (q.list.currentItem < (q.list.items.length : Int) - 1 →
      q.next.list.currentItem = q.list.currentItem + 1) ∧
    (q.list.currentItem = (q.list.items.length : Int) - 1 → q.next.list.currentItem = 0) ∧
    (1 ≤ q.list.currentItem → q.prev.list.currentItem = q.list.currentItem - 1) ∧
    (q.list.currentItem = 0 → q.prev.list.currentItem = (q.list.items.length : Int) - 1) ∧
    q.next.Items = q.Items ∧ q.prev.Items = q.Items ∧
    q.next.list.items = q.list.items ∧ q.prev.list.items = q.list.items := by
  refine ⟨?_, ?_, ?_, prev_at_first_row q hrows, rfl, rfl, rfl, rfl⟩
  · intro hlt
    have hne : ¬ q.list.currentItem = (q.list.items.length : Int) - 1 := by omega
    simp only [next, TviewList.GetCurrentItem, GetItemCount, TviewList.GetItemCount, if_neg hne,
      TviewList.SetCurrentItem]
    exact clampIndex_of_in_range _ _ (by omega) (by omega)
  · intro heq
    simp only [next, TviewList.GetCurrentItem, GetItemCount, TviewList.GetItemCount, if_pos heq,
      TviewList.SetCurrentItem]
    exact clampIndex_of_in_range _ _ (le_refl 0) (by omega)
  · intro hge
    simp only [prev, TviewList.GetCurrentItem, TviewList.SetCurrentItem]
    exact clampIndex_of_in_range _ _ (by omega) (by omega)

theorem next_prev_cursor_witness :
    1 ≤ queueEnq3.list.items.length ∧ 0 ≤ queueEnq3.list.currentItem ∧
    queueEnq3.list.currentItem < (queueEnq3.list.items.length : Int) ∧
    queueEnq3.next.list.currentItem = queueEnq3.list.currentItem + 1 ∧
    queueEnq3.prev.list.currentItem = (queueEnq3.list.items.length : Int) - 1 ∧
    queueEnq3.next.Items = queueEnq3.Items ∧ queueEnq3.prev.Items = queueEnq3.Items :=
  ⟨by decide, by decide, by decide,
    (next_prev_cursor queueEnq3 (by decide) (by decide) (by decide)).1 (by decide),
    (next_prev_cursor queueEnq3 (by decide) (by decide) (by decide)).2.2.2.1 (by decide),
    (next_prev_cursor queueEnq3 (by decide) (by decide) (by decide)).2.2.2.2.1,
    (next_prev_cursor queueEnq3 (by decide) (by decide) (by decide)).2.2.2.2.2.1⟩

/-! ## Sha1Hex -/

/-- C15: for every input, Sha1Hex returns exactly 40 characters, each one of
0-9 or a-f; the output is never empty and holds no line feed, so followed by a
line feed it reads back as exactly one line of the cache file. -/
theorem Sha1Hex_token (input : String) :
    (Sha1Hex input).length = 40 ∧
    (∀ c ∈ (Sha1Hex input).data, c ∈ hextable) ∧
    Sha1Hex input ≠ "" ∧
    '\n' ∉ (Sha1Hex input).data ∧
    rawLines [] (Sha1Hex input ++ "\n").data = [(Sha1Hex input).data] := by
  have hlen : (Sha1Hex input).data.length = 40 := Sha1Hex_length input
  have hnl : '\n' ∉ (Sha1Hex input).data := fun hmem =>
    absurd (Sha1Hex_mem input _ hmem) (by decide)
  refine ⟨hlen, Sha1Hex_mem input, ?_, hnl, ?_⟩
  · intro he
    rw [he] at hlen
    exact absurd hlen (by decide)
  · have := rawLines_lines [(Sha1Hex input).data] (by simpa using hnl)
    simpa [String.data_append] using this

/-! ## The key handler -/

theorem DeleteItem_Items_of_no_track (h : Helpers) (q : Queue) (index : Int)
    (hnone : (DeleteItem h q index).2.1 = none) : (DeleteItem h q index).1.Items = q.Items := by
  by_cases hg : index > (q.Items.length : Int) - 1
  · simp only [DeleteItem, if_pos hg]
  · by_cases hne : index ≠ -1
    · by_cases hneg : index < 0
      · have hloop := deleteLoop_miss index q.Items 0 [] none (by intro j _; omega)
        simp only [DeleteItem, if_neg hg, if_pos hne, hloop, UpdateTitle, List.nil_append]
      · have hdel := DeleteItem_eq_of_in_range h q index (by omega) (by omega)
        rw [hdel] at hnone
        have hlt : index.toNat < q.Items.length := by omega
        simp [hlt] at hnone
    · simp only [DeleteItem, if_neg hg, if_neg hne]

/-- The handler of the delete key: when DeleteItem returns no track, be it with
an error or with the nil, nil result, the handler returns and Items is as it
was. -/
theorem inputCapture_delete_no_track (h : Helpers) (api : PlayerApi) (s : Sys) (rnd : Nat → Nat)
    (q : Queue) (p : Player)
    (hnone : (DeleteItem h q q.list.GetCurrentItem).2.1 = none) :
    ∃ q1, inputCapture h api s rnd (q, p) 'd' = some (q1, p) ∧ q1.Items = q.Items := by
  have e1 : ¬ ('d' = 'j') := by decide
  have e2 : ¬ ('d' = 'k') := by decide
  refine ⟨(DeleteItem h q q.list.GetCurrentItem).1, ?_, DeleteItem_Items_of_no_track h q _ hnone⟩
  simp only [inputCapture, if_neg e1, if_neg e2, if_true]

/-- The handler of the play-selected key dies whenever its DeleteItem call
returns no track, be it with an error or with the nil, nil result. -/
theorem inputCapture_play_no_track (h : Helpers) (api : PlayerApi) (s : Sys) (rnd : Nat → Nat)
    (q : Queue) (p : Player)
    (hnone : (DeleteItem h q q.list.GetCurrentItem).2.1 = none) :
    inputCapture h api s rnd (q, p) 'l' = none := by
  have e1 : ¬ ('l' = 'j') := by decide
  have e2 : ¬ ('l' = 'k') := by decide
  have e3 : ¬ ('l' = 'd') := by decide
  have e4 : ¬ ('l' = 'D') := by decide
  simp only [inputCapture, if_neg e1, if_neg e2, if_neg e3, if_neg e4, if_true, hnone,
    PushFrontPtr, Option.map_none']

/-- C14: the handler of the play-selected key does not survive a failed
DeleteItem. On the queue of NewQueue the cursor is 0, DeleteItem(0) returns the
out-of-range error and no track, and the handler, which goes on to call
PushFront with the nil track, dies with a runtime failure. The handler of the
delete key, on the same queue, returns and leaves the queue as it was. -/
theorem play_selected_on_empty_queue_crashes :
    DeleteItem exHelpers (NewQueue exHelpers) (NewQueue exHelpers).list.GetCurrentItem
      = (NewQueue exHelpers, none, some (GoError.new "Index out of range")) ∧
    inputCapture exHelpers exApi (sysOk "false") (fun _ => 0) (NewQueue exHelpers, playerIdle) 'l'
      = none ∧
    inputCapture exHelpers exApi (sysOk "false") (fun _ => 0) (NewQueue exHelpers, playerIdle) 'd'
      = some (NewQueue exHelpers, playerIdle) := by
  decide

theorem cons_take_drop_perm (l : List AudioFile) (i : Nat) (a : AudioFile)
    (ha : l[i]? = some a) : (a :: (l.take i ++ l.drop (i + 1))).Perm l := by
  obtain ⟨hi, hai⟩ := List.getElem?_eq_some.mp ha
  have hsplit : l = l.take i ++ a :: l.drop (i + 1) := by
    rw [← hai, List.getElem_cons_drop, List.take_append_drop]
  have hp : (a :: (l.take i ++ l.drop (i + 1))).Perm (l.take i ++ a :: l.drop (i + 1)) :=
    List.perm_middle.symm
  rw [← hsplit] at hp
  exact hp

/-- C18: with the cursor on an index i, 0 <= i < len(Items), the handler of the
play-selected key returns, and Items becomes the old track at position i
followed by the other old tracks in their original order: a permutation of the
old Items of the same length. -/
theorem play_selected_moves_to_front (h : Helpers) (api : PlayerApi) (s : Sys) (rnd : Nat → Nat)
    (q : Queue) (p : Player)
    (h0 : 0 ≤ q.list.currentItem) (h1 : q.list.currentItem < (q.Items.length : Int)) :
    ∃ (q1 : Queue) (a : AudioFile),
      inputCapture h api s rnd (q, p) 'l' = some (q1, api.Skip p) ∧
      q.Items[q.list.currentItem.toNat]? = some a ∧
      q1.Items = a :: (q.Items.take q.list.currentItem.toNat
        ++ q.Items.drop (q.list.currentItem.toNat + 1)) ∧
      q1.Items.Perm q.Items ∧
      q1.Items.length = q.Items.length := by
  have hlt : q.list.currentItem.toNat < q.Items.length := by omega
  have hget : q.Items[q.list.currentItem.toNat]? = some q.Items[q.list.currentItem.toNat] :=
    List.getElem?_eq_getElem hlt
  have hdel := DeleteItem_eq_of_in_range h q q.list.currentItem h0 h1
  have e1 : ¬ ('l' = 'j') := by decide
  have e2 : ¬ ('l' = 'k') := by decide
  have e3 : ¬ ('l' = 'd') := by decide
  have e4 : ¬ ('l' = 'D') := by decide
  have hitems : ∀ x : Queue, (PushFront h (UpdateTitle h x) q.Items[q.list.currentItem.toNat]).Items
      = q.Items[q.list.currentItem.toNat] :: x.Items := fun _ => rfl
  refine ⟨PushFront h (DeleteItem h q q.list.currentItem).1 q.Items[q.list.currentItem.toNat],
    q.Items[q.list.currentItem.toNat], ?_, hget, ?_, ?_, ?_⟩
  · simp only [inputCapture, if_neg e1, if_neg e2, if_neg e3, if_neg e4, if_true,
      TviewList.GetCurrentItem, hdel, hget, PushFrontPtr, Option.map_some']
  · rw [hdel, hitems]
  · rw [hdel, hitems]
    exact cons_take_drop_perm q.Items _ _ hget
  · rw [hdel, hitems]
    exact (cons_take_drop_perm q.Items _ _ hget).length_eq

theorem play_selected_moves_to_front_witness :
    (0 : Int) ≤ queueAB.list.currentItem ∧
    queueAB.list.currentItem < (queueAB.Items.length : Int) ∧
    ∃ (q1 : Queue) (a : AudioFile),
      inputCapture exHelpers exApi (sysOk "false") (fun _ => 0) (queueAB, playerBusy) 'l'
        = some (q1, exApi.Skip playerBusy) ∧
      queueAB.Items[queueAB.list.currentItem.toNat]? = some a ∧
      q1.Items = a :: (queueAB.Items.take queueAB.list.currentItem.toNat
        ++ queueAB.Items.drop (queueAB.list.currentItem.toNat + 1)) ∧
      q1.Items.Perm queueAB.Items ∧
      q1.Items.length = queueAB.Items.length :=
  ⟨by decide, by decide,
    play_selected_moves_to_front exHelpers exApi (sysOk "false") (fun _ => 0) queueAB playerBusy
      (by decide) (by decide)⟩

/-! ## The display as a view of Items -/

theorem RemoveItem_items_in_range (l : TviewList) (index : Int)
    (h0 : 0 ≤ index) (h1 : index < (l.items.length : Int)) :
    (l.RemoveItem index).items = l.items.eraseIdx index.toNat := by
  have hlen : ¬ l.items.length = 0 := by omega
  unfold TviewList.RemoveItem
  rw [if_neg hlen]
  simp only [clampIndex_of_in_range _ _ h0 h1]
  split <;> rfl

theorem shuffleRows_items (h : Helpers) (s : Sys) (items : List AudioFile) :
    ∀ l : TviewList,
      (shuffleRows h s l items).items
        = l.items ++ items.map fun v => ⟨itemView h (s.GetLength v.Path).1 v.Name, v.Path⟩ := by
  induction items with
  | nil => intro l; simp [shuffleRows]
  | cons v rest ih =>
    intro l
    simp only [shuffleRows, ih, AddItem_items, List.map_cons, List.append_assoc,
      List.singleton_append]

theorem RowsMirrorItems_length (q : Queue) (hinv : RowsMirrorItems q) :
    q.list.items.length = q.Items.length := by
  have := congrArg List.length hinv
  simpa [GetItems] using this

theorem DeleteItem_RowsMirrorItems (h : Helpers) (q : Queue) (index : Int)
    (hinv : RowsMirrorItems q) (hidx : -1 ≤ index) :
    RowsMirrorItems (DeleteItem h q index).1 := by
  by_cases hg : index > (q.Items.length : Int) - 1
  · simpa only [DeleteItem, if_pos hg] using hinv
  · by_cases hne : index ≠ -1
    · have h0 : 0 ≤ index := by omega
      have h1 : index < (q.Items.length : Int) := by omega
      have hrows : index < (q.list.items.length : Int) := by
        rw [RowsMirrorItems_length q hinv]; exact h1
      rw [DeleteItem_eq_of_in_range h q index h0 h1]
      unfold RowsMirrorItems at hinv ⊢
      simp only [GetItems] at hinv
      simp only [GetItems, UpdateTitle, TviewList.SetTitle, RemoveItem_items_in_range _ _ h0 hrows,
        List.eraseIdx_eq_take_drop_succ, List.map_append, List.map_take, List.map_drop, hinv]
    · simpa only [DeleteItem, if_neg hg, if_neg hne] using hinv

theorem step_RowsMirrorItems (h : Helpers) (st : Queue × Player) (op : Op)
    (hinv : RowsMirrorItems st.1) (hsafe : op.viewSafe) :
    ∃ st1, step h st op = some st1 ∧ RowsMirrorItems st1.1 := by
  cases op with
  | enqueue s audioFile =>
    refine ⟨_, rfl, ?_⟩
    by_cases hb : st.2.IsRunning = false ∧ "false" = s.TEST
    · have : (Enqueue h s st.1 st.2 audioFile).1 = st.1 := by
        unfold Enqueue
        rw [if_pos hb]
      simpa only [this] using hinv
    · have hpath : st.2.IsRunning = true ∨ s.TEST ≠ "false" := by
        by_cases hr : st.2.IsRunning = true
        · exact Or.inl hr
        · right
          intro ht
          exact hb ⟨by simpa using hr, ht.symm⟩
      have e1 := (Enqueue_eq_of_append h s st.1 st.2 audioFile hpath hsafe).1
      unfold RowsMirrorItems at hinv ⊢
      simp only [GetItems] at hinv
      simp only [e1, GetItems, UpdateTitle, TviewList.SetTitle, AddItem_items, List.map_append,
        List.map_cons, List.map_nil, hinv]
  | dequeue =>
    have hlen := RowsMirrorItems_length st.1 hinv
    by_cases hc : st.1.GetItemCount = 0
    · refine ⟨(st.1, st.2), ?_, hinv⟩
      simp only [step, Dequeue, if_pos hc, Option.map_some']
    · cases hitems : st.1.Items with
      | nil =>
        exfalso
        apply hc
        simp [GetItemCount, TviewList.GetItemCount, hlen, hitems]
      | cons first rest =>
        refine ⟨(UpdateTitle h (DeleteItem h st.1 0).1, st.2), ?_, ?_⟩
        · simp only [step, Dequeue, if_neg hc, hitems, Option.map_some']
        · have := DeleteItem_RowsMirrorItems h st.1 0 hinv (by omega)
          simpa only [RowsMirrorItems, GetItems, UpdateTitle, TviewList.SetTitle] using this
  | deleteItem index =>
    exact ⟨_, rfl, DeleteItem_RowsMirrorItems h st.1 index hinv hsafe⟩
  | pushFront audioFile =>
    refine ⟨_, rfl, ?_⟩
    unfold RowsMirrorItems at hinv ⊢
    simp only [GetItems] at hinv
    simp only [step, GetItems, PushFront, UpdateTitle, TviewList.SetTitle, InsertItem_zero_items,
      List.map_cons, List.singleton_append, hinv]
  | shuffle s rnd =>
    refine ⟨_, rfl, ?_⟩
    unfold RowsMirrorItems
    simp only [step, GetItems, Shuffle, UpdateTitle, TviewList.SetTitle, shuffleRows_items,
      TviewList.Clear, List.nil_append, List.map_map, Function.comp_def]
  | clearQueue =>
    exact ⟨_, rfl, rfl⟩
  | playerFlag running =>
    exact ⟨_, rfl, hinv⟩

theorem run_RowsMirrorItems (h : Helpers) (ops : List Op) :
    ∀ st : Queue × Player, RowsMirrorItems st.1 → (∀ op ∈ ops, op.viewSafe) →
      ∃ st1, run h st ops = some st1 ∧ RowsMirrorItems st1.1 := by
  induction ops with
  | nil => intro st hinv _; exact ⟨st, rfl, hinv⟩
  | cons op rest ih =>
    intro st hinv hsafe
    obtain ⟨st2, hstep, hinv2⟩ := step_RowsMirrorItems h st op hinv (hsafe op (by simp))
    obtain ⟨st1, hrun, hinv1⟩ := ih st2 hinv2 (fun o ho => hsafe o (by simp [ho]))
    exact ⟨st1, by simp only [run, hstep, Option.some_bind, hrun], hinv1⟩

theorem Dequeue_no_failure (h : Helpers) (q : Queue) (hinv : RowsMirrorItems q) :
    Dequeue h q ≠ none := by
  obtain ⟨st1, hstep, _⟩ := step_RowsMirrorItems h (q, playerIdle) Op.dequeue hinv trivial
  intro hnone
  simp [step, hnone] at hstep

/-- C19: every state reached from NewQueue by Enqueue calls whose duration
lookup succeeds, PushFront, DeleteItem with an index of at least -1, Dequeue,
ClearQueue and Shuffle exists (no call dies) and its display is an exact view of
Items: as many rows as tracks, row i carrying the Path of Items[i]. In such a
state the row count is 0 exactly when Items is empty, Dequeue does not fail on
its read of Items[0], and a SaveQueue that writes the file writes exactly one
line per queued track, the identity of its path, in queue order. -/
theorem display_mirrors_items (h : Helpers) (p : Player) (ops : List Op)
    (hsafe : ∀ op ∈ ops, op.viewSafe) :
    ∃ st1, run h (NewQueue h, p) ops = some st1 ∧
      st1.1.list.items.length = st1.1.Items.length ∧
      st1.1.list.items.map ListItem.SecondaryText = st1.1.Items.map AudioFile.Path ∧
      (st1.1.GetItemCount = 0 ↔ st1.1.Items = []) ∧
      Dequeue h st1.1 ≠ none ∧
      ∀ (io : Faults) (file : Option String), io.writeFile = none →
        ∃ content, SaveQueue h io st1.1 file = (some content, none) ∧
          content.data = unlines (st1.1.Items.map fun t => (Sha1Hex (h.GetName t.Path)).data) := by
  obtain ⟨st1, hrun, hinv⟩ := run_RowsMirrorItems h ops (NewQueue h, p) rfl hsafe
  have hlen := RowsMirrorItems_length st1.1 hinv
  refine ⟨st1, hrun, hlen, hinv, ?_, Dequeue_no_failure h st1.1 hinv, ?_⟩
  · simp only [GetItemCount, TviewList.GetItemCount, hlen]
    constructor
    · intro hz
      exact List.length_eq_zero.mp (by exact_mod_cast hz)
    · intro hnil
      simp [hnil]
  · intro io file hwrite
    refine ⟨_, SaveQueue_ok h io st1.1 file hwrite, ?_⟩
    unfold RowsMirrorItems at hinv
    rw [saveContent_data, hinv]
    simp [unlines, List.map_map, Function.comp_def]

theorem display_mirrors_items_witness :
    (∀ op ∈ [Op.enqueue (sysOk "") trackA, Op.pushFront trackB, Op.deleteItem 1, Op.dequeue],
      op.viewSafe) ∧
    ∃ st1, run exHelpers (NewQueue exHelpers, playerIdle)
        [Op.enqueue (sysOk "") trackA, Op.pushFront trackB, Op.deleteItem 1, Op.dequeue] = some st1 ∧
      st1.1.list.items.length = st1.1.Items.length :=
  have hs : ∀ op ∈ [Op.enqueue (sysOk "") trackA, Op.pushFront trackB, Op.deleteItem 1, Op.dequeue],
      op.viewSafe := by
    intro op hop
    simp only [List.mem_cons, List.mem_singleton, List.not_mem_nil, or_false] at hop
    rcases hop with rfl | rfl | rfl | rfl
    · exact rfl
    · exact trivial
    · show (-1 : Int) ≤ 1
      decide
    · exact trivial
  ⟨hs, (display_mirrors_items exHelpers playerIdle _ hs).imp fun _ hst => ⟨hst.1, hst.2.1⟩⟩

/-! ## Handing a track to the player -/

theorem Enqueue_player_of_running (h : Helpers) (s : Sys) (q : Queue) (p : Player)
    (audioFile : AudioFile) (hrun : p.IsRunning = true) :
    (Enqueue h s q p audioFile).2.1 = p := by
  have hcond : ¬ (p.IsRunning = false ∧ "false" = s.TEST) := not_bootstrap_of_append (Or.inl hrun)
  unfold Enqueue
  rw [if_neg hcond]
  split <;> rfl

theorem Enqueue_player_cases (h : Helpers) (s : Sys) (q : Queue) (p : Player)
    (audioFile : AudioFile) :
    (Enqueue h s q p audioFile).2.1 = p ∨
    (Enqueue h s q p audioFile).2.1 = { IsRunning := true, runCalls := p.runCalls ++ [audioFile] } := by
  by_cases hb : p.IsRunning = false ∧ "false" = s.TEST
  · right
    unfold Enqueue
    rw [if_pos hb]
  · left
    unfold Enqueue
    rw [if_neg hb]
    split <;> rfl

theorem enqueueCalls_player_of_running (h : Helpers) (calls : List (Sys × AudioFile)) :
    ∀ (q : Queue) (p : Player), p.IsRunning = true → (enqueueCalls h calls (q, p)).2 = p := by
  induction calls with
  | nil => intro q p _; rfl
  | cons c rest ih =>
    intro q p hrun
    obtain ⟨s, audioFile⟩ := c
    have hp := Enqueue_player_of_running h s q p audioFile hrun
    simp only [enqueueCalls, hp]
    exact ih _ p hrun

theorem enqueueCalls_handed (h : Helpers) (calls : List (Sys × AudioFile)) :
    ∀ (q : Queue) (p : Player),
      ∃ handed : List AudioFile, handed.length ≤ 1 ∧
        (enqueueCalls h calls (q, p)).2.runCalls = p.runCalls ++ handed := by
  induction calls with
  | nil => intro q p; exact ⟨[], by simp, by simp [enqueueCalls]⟩
  | cons c rest ih =>
    intro q p
    obtain ⟨s, audioFile⟩ := c
    rcases Enqueue_player_cases h s q p audioFile with hp | hp
    · obtain ⟨handed, hlen, hrc⟩ := ih (Enqueue h s q p audioFile).1 p
      exact ⟨handed, hlen, by simp only [enqueueCalls, hp, hrc]⟩
    · refine ⟨[audioFile], by simp, ?_⟩
      simp only [enqueueCalls, hp]
      rw [enqueueCalls_player_of_running h rest _ _ rfl]

/-- C20: a call of Enqueue that hands its track to the player leaves the player
marked as running, and every run of Enqueue calls made after it leaves the
player exactly as that call left it: no later call hands over a track. Hence
over any run of Enqueue calls, from any state, the tracks handed to the player
grow by at most one. -/
theorem Enqueue_hands_off_at_most_once (h : Helpers) (q : Queue) (p : Player) :
    (∀ (s : Sys) (audioFile : AudioFile),
      (Enqueue h s q p audioFile).2.1.runCalls ≠ p.runCalls →
        (Enqueue h s q p audioFile).2.1.IsRunning = true ∧
        (Enqueue h s q p audioFile).2.1.runCalls = p.runCalls ++ [audioFile] ∧
        ∀ later : List (Sys × AudioFile),
          (enqueueCalls h later ((Enqueue h s q p audioFile).1, (Enqueue h s q p audioFile).2.1)).2
            = (Enqueue h s q p audioFile).2.1) ∧
    (∀ calls : List (Sys × AudioFile),
      ∃ handed : List AudioFile, handed.length ≤ 1 ∧
        (enqueueCalls h calls (q, p)).2.runCalls = p.runCalls ++ handed) := by
  refine ⟨?_, fun calls => enqueueCalls_handed h calls q p⟩
  intro s audioFile hne
  rcases Enqueue_player_cases h s q p audioFile with hp | hp
  · rw [hp] at hne
    exact absurd rfl hne
  · refine ⟨by rw [hp], by rw [hp], ?_⟩
    intro later
    exact enqueueCalls_player_of_running h later _ _ (by rw [hp])

theorem Enqueue_hands_off_at_most_once_witness :
    (Enqueue exHelpers (sysOk "false") (NewQueue exHelpers) playerIdle trackA).2.1.runCalls
      ≠ playerIdle.runCalls ∧
    (enqueueCalls exHelpers [(sysOk "false", trackB), (sysOk "false", trackA)]
        ((Enqueue exHelpers (sysOk "false") (NewQueue exHelpers) playerIdle trackA).1,
          (Enqueue exHelpers (sysOk "false") (NewQueue exHelpers) playerIdle trackA).2.1)).2
      = (Enqueue exHelpers (sysOk "false") (NewQueue exHelpers) playerIdle trackA).2.1 :=
  ⟨by decide,
    ((Enqueue_hands_off_at_most_once exHelpers (NewQueue exHelpers) playerIdle).1 (sysOk "false")
      trackA (by decide)).2.2 [(sysOk "false", trackB), (sysOk "false", trackA)]⟩

end Gomu
